import Mathlib

/-!
# OpenGLAssimpModelLoader: matrix algebra, key-frame search, bone registry

A shallow embedding of `matrix4x4.cpp` and of the skeletal-animation part of
`modelLoader.cpp`: matrices and the camera basis, key-frame tracks, the bone
registry, the per-vertex bone influences, the hierarchy pass and the clock.

Conventions of the embedding

* `float` / `double` values are read as exact rationals (`ℚ`); casts between the
  two are the identity.
* `size_t` counters are natural numbers.  The only counter that is incremented,
  `numBones`, grows by one per stored bone record, so it cannot wrap before
  memory is exhausted.
* A failing `assert` ends the run.  Functions that can reach one return
  `Except Abort _`, the error naming the assertion that fired.
-/

namespace ModelLoader

/-! ## Matrix_4f -/

/-- The 4x4 matrix type: field `mij` is the entry `m[i][j]`. -/
@[ext]
structure Matrix_4f where
  m00 : ℚ
  m01 : ℚ
  m02 : ℚ
  m03 : ℚ
  m10 : ℚ
  m11 : ℚ
  m12 : ℚ
  m13 : ℚ
  m20 : ℚ
  m21 : ℚ
  m22 : ℚ
  m23 : ℚ
  m30 : ℚ
  m31 : ℚ
  m32 : ℚ
  m33 : ℚ
  deriving DecidableEq, Repr

namespace Matrix_4f

/-- Entry `m[i][j]` of the matrix, by row and column number. -/
def entry (M : Matrix_4f) (i j : Fin 4) : ℚ :=
  match i, j with
  | 0, 0 => M.m00 | 0, 1 => M.m01 | 0, 2 => M.m02 | 0, 3 => M.m03
  | 1, 0 => M.m10 | 1, 1 => M.m11 | 1, 2 => M.m12 | 1, 3 => M.m13
  | 2, 0 => M.m20 | 2, 1 => M.m21 | 2, 2 => M.m22 | 2, 3 => M.m23
  | 3, 0 => M.m30 | 3, 1 => M.m31 | 3, 2 => M.m32 | 3, 3 => M.m33

/-- The matrix as an element of Mathlib's matrix ring, row `i` being `m[i][0..3]`. -/
def toMatrix (M : Matrix_4f) : Matrix (Fin 4) (Fin 4) ℚ :=
  !![M.m00, M.m01, M.m02, M.m03;
     M.m10, M.m11, M.m12, M.m13;
     M.m20, M.m21, M.m22, M.m23;
     M.m30, M.m31, M.m32, M.m33]

/-- Modelled from the spec: `Matrix_4f::InitIdentity` is declared in `matrix4x4.h`,
which is not among the sources; it sets the matrix to the identity. -/
def InitIdentity : Matrix_4f :=
  { m00 := 1, m01 := 0, m02 := 0, m03 := 0
    m10 := 0, m11 := 1, m12 := 0, m13 := 0
    m20 := 0, m21 := 0, m22 := 1, m23 := 0
    m30 := 0, m31 := 0, m32 := 0, m33 := 1 }

/-- Modelled from the spec: `Matrix_4f::operator*` is declared in `matrix4x4.h`,
which is not among the sources; the spec describes it as the standard 4x4 by 4x4
product, `(A * B)[i][j] = sum over k of A[i][k] * B[k][j]`. -/
def mul (A B : Matrix_4f) : Matrix_4f :=
  { m00 := A.m00 * B.m00 + A.m01 * B.m10 + A.m02 * B.m20 + A.m03 * B.m30
    m01 := A.m00 * B.m01 + A.m01 * B.m11 + A.m02 * B.m21 + A.m03 * B.m31
    m02 := A.m00 * B.m02 + A.m01 * B.m12 + A.m02 * B.m22 + A.m03 * B.m32
    m03 := A.m00 * B.m03 + A.m01 * B.m13 + A.m02 * B.m23 + A.m03 * B.m33
    m10 := A.m10 * B.m00 + A.m11 * B.m10 + A.m12 * B.m20 + A.m13 * B.m30
    m11 := A.m10 * B.m01 + A.m11 * B.m11 + A.m12 * B.m21 + A.m13 * B.m31
    m12 := A.m10 * B.m02 + A.m11 * B.m12 + A.m12 * B.m22 + A.m13 * B.m32
    m13 := A.m10 * B.m03 + A.m11 * B.m13 + A.m12 * B.m23 + A.m13 * B.m33
    m20 := A.m20 * B.m00 + A.m21 * B.m10 + A.m22 * B.m20 + A.m23 * B.m30
    m21 := A.m20 * B.m01 + A.m21 * B.m11 + A.m22 * B.m21 + A.m23 * B.m31
    m22 := A.m20 * B.m02 + A.m21 * B.m12 + A.m22 * B.m22 + A.m23 * B.m32
    m23 := A.m20 * B.m03 + A.m21 * B.m13 + A.m22 * B.m23 + A.m23 * B.m33
    m30 := A.m30 * B.m00 + A.m31 * B.m10 + A.m32 * B.m20 + A.m33 * B.m30
    m31 := A.m30 * B.m01 + A.m31 * B.m11 + A.m32 * B.m21 + A.m33 * B.m31
    m32 := A.m30 * B.m02 + A.m31 * B.m12 + A.m32 * B.m22 + A.m33 * B.m32
    m33 := A.m30 * B.m03 + A.m31 * B.m13 + A.m32 * B.m23 + A.m33 * B.m33 }

instance : Mul Matrix_4f := ⟨mul⟩

/-- `Matrix_4f::InitScaleTransform` (matrix4x4.cpp, lines 4-10). -/
def InitScaleTransform (ScaleX ScaleY ScaleZ : ℚ) : Matrix_4f :=
  { m00 := ScaleX, m01 := 0, m02 := 0, m03 := 0
    m10 := 0, m11 := ScaleY, m12 := 0, m13 := 0
    m20 := 0, m21 := 0, m22 := ScaleZ, m23 := 0
    m30 := 0, m31 := 0, m32 := 0, m33 := 1 }

/-- `Matrix_4f::InitTranslationTransform` (matrix4x4.cpp, lines 38-44). -/
def InitTranslationTransform (x y z : ℚ) : Matrix_4f :=
  { m00 := 1, m01 := 0, m02 := 0, m03 := x
    m10 := 0, m11 := 1, m12 := 0, m13 := y
    m20 := 0, m21 := 0, m22 := 1, m23 := z
    m30 := 0, m31 := 0, m32 := 0, m33 := 1 }

/-- `Matrix_4f::Determinant` (matrix4x4.cpp, lines 75-83): the 24 signed products,
in the order in which the source writes them. -/
def Determinant (M : Matrix_4f) : ℚ :=
  M.m00*M.m11*M.m22*M.m33 - M.m00*M.m11*M.m23*M.m32 + M.m00*M.m12*M.m23*M.m31 - M.m00*M.m12*M.m21*M.m33
    + M.m00*M.m13*M.m21*M.m32 - M.m00*M.m13*M.m22*M.m31 - M.m01*M.m12*M.m23*M.m30 + M.m01*M.m12*M.m20*M.m33
    - M.m01*M.m13*M.m20*M.m32 + M.m01*M.m13*M.m22*M.m30 - M.m01*M.m10*M.m22*M.m33 + M.m01*M.m10*M.m23*M.m32
    + M.m02*M.m13*M.m20*M.m31 - M.m02*M.m13*M.m21*M.m30 + M.m02*M.m10*M.m21*M.m33 - M.m02*M.m10*M.m23*M.m31
    + M.m02*M.m11*M.m23*M.m30 - M.m02*M.m11*M.m20*M.m33 - M.m03*M.m10*M.m21*M.m32 + M.m03*M.m10*M.m22*M.m31
    - M.m03*M.m11*M.m22*M.m30 + M.m03*M.m11*M.m20*M.m32 - M.m03*M.m12*M.m20*M.m31 + M.m03*M.m12*M.m21*M.m30

/-- The local `res` of `Matrix_4f::Inverse` (matrix4x4.cpp, lines 105-123), as a
function of the reciprocal determinant `invdet` and of the matrix entries. -/
def inverseRes (invdet : ℚ) (M : Matrix_4f) : Matrix_4f :=
  { m00 := invdet  * (M.m11 * (M.m22 * M.m33 - M.m23 * M.m32) + M.m12 * (M.m23 * M.m31 - M.m21 * M.m33) + M.m13 * (M.m21 * M.m32 - M.m22 * M.m31))
    m01 := -invdet * (M.m01 * (M.m22 * M.m33 - M.m23 * M.m32) + M.m02 * (M.m23 * M.m31 - M.m21 * M.m33) + M.m03 * (M.m21 * M.m32 - M.m22 * M.m31))
    m02 := invdet  * (M.m01 * (M.m12 * M.m33 - M.m13 * M.m32) + M.m02 * (M.m13 * M.m31 - M.m11 * M.m33) + M.m03 * (M.m11 * M.m32 - M.m12 * M.m31))
    m03 := -invdet * (M.m01 * (M.m12 * M.m23 - M.m13 * M.m22) + M.m02 * (M.m13 * M.m21 - M.m11 * M.m23) + M.m03 * (M.m11 * M.m22 - M.m12 * M.m21))
    m10 := -invdet * (M.m10 * (M.m22 * M.m33 - M.m23 * M.m32) + M.m12 * (M.m23 * M.m30 - M.m20 * M.m33) + M.m13 * (M.m20 * M.m32 - M.m22 * M.m30))
    m11 := invdet  * (M.m00 * (M.m22 * M.m33 - M.m23 * M.m32) + M.m02 * (M.m23 * M.m30 - M.m20 * M.m33) + M.m03 * (M.m20 * M.m32 - M.m22 * M.m30))
    m12 := -invdet * (M.m00 * (M.m12 * M.m33 - M.m13 * M.m32) + M.m02 * (M.m13 * M.m30 - M.m10 * M.m33) + M.m03 * (M.m10 * M.m32 - M.m12 * M.m30))
    m13 := invdet  * (M.m00 * (M.m12 * M.m23 - M.m13 * M.m22) + M.m02 * (M.m13 * M.m20 - M.m10 * M.m23) + M.m03 * (M.m10 * M.m22 - M.m12 * M.m20))
    m20 := invdet  * (M.m10 * (M.m21 * M.m33 - M.m23 * M.m31) + M.m11 * (M.m23 * M.m30 - M.m20 * M.m33) + M.m13 * (M.m20 * M.m31 - M.m21 * M.m30))
    m21 := -invdet * (M.m00 * (M.m21 * M.m33 - M.m23 * M.m31) + M.m01 * (M.m23 * M.m30 - M.m20 * M.m33) + M.m03 * (M.m20 * M.m31 - M.m21 * M.m30))
    m22 := invdet  * (M.m00 * (M.m11 * M.m33 - M.m13 * M.m31) + M.m01 * (M.m13 * M.m30 - M.m10 * M.m33) + M.m03 * (M.m10 * M.m31 - M.m11 * M.m30))
    m23 := -invdet * (M.m00 * (M.m11 * M.m23 - M.m13 * M.m21) + M.m01 * (M.m13 * M.m20 - M.m10 * M.m23) + M.m03 * (M.m10 * M.m21 - M.m11 * M.m20))
    m30 := -invdet * (M.m10 * (M.m21 * M.m32 - M.m22 * M.m31) + M.m11 * (M.m22 * M.m30 - M.m20 * M.m32) + M.m12 * (M.m20 * M.m31 - M.m21 * M.m30))
    m31 := invdet  * (M.m00 * (M.m21 * M.m32 - M.m22 * M.m31) + M.m01 * (M.m22 * M.m30 - M.m20 * M.m32) + M.m02 * (M.m20 * M.m31 - M.m21 * M.m30))
    m32 := -invdet * (M.m00 * (M.m11 * M.m32 - M.m12 * M.m31) + M.m01 * (M.m12 * M.m30 - M.m10 * M.m32) + M.m02 * (M.m10 * M.m31 - M.m11 * M.m30))
    m33 := invdet  * (M.m00 * (M.m11 * M.m22 - M.m12 * M.m21) + M.m01 * (M.m12 * M.m20 - M.m10 * M.m22) + M.m02 * (M.m10 * M.m21 - M.m11 * M.m20)) }

end Matrix_4f

/-- How a call of the in-place `Matrix_4f::Inverse` ends: `self` holds the entries
of the object when control leaves the function, `asserted` tells whether that was
through the `assert(0)` of line 101. -/
structure InverseRun where
  self : Matrix_4f
  asserted : Bool
  deriving DecidableEq, Repr

namespace Matrix_4f

/-- `Matrix_4f::Inverse` (matrix4x4.cpp, lines 86-127). -/
def Inverse (M : Matrix_4f) : InverseRun :=
  let det := M.Determinant
  if det = 0 then
    { self := M, asserted := true }
  else
    let invdet := 1 / det
    { self := inverseRes invdet M, asserted := false }

end Matrix_4f

/-- The assertions of `modelLoader.cpp` that can end a run, and the reads the
embedding treats as the end of a run because C++ leaves them undefined. -/
inductive Abort where
  /-- `assert(0)` behind the scan of `findPosition` (line 429). -/
  | findPositionAssert
  /-- `assert(0)` behind the scan of `findRotation` (line 443). -/
  | findRotationAssert
  /-- `assert(0)` behind the scan of `findScaling` (line 457). -/
  | findScalingAssert
  /-- `assert(mNumRotationKeys > 0)` / `assert(mNumScalingKeys > 0)` (lines 435, 449). -/
  | numKeysAssert
  /-- `assert(next < mNum...Keys)` (lines 470, 491, 510). -/
  | nextIndexAssert
  /-- `assert(factor >= 0.0f && factor <= 1.0f)` (lines 473, 494, 513). -/
  | factorAssert
  /-- An index outside the array it is applied to: undefined in C++. -/
  | outOfRange
  /-- `assert(0)` behind the slot scan of `vBoneData::addBoneData` (line 42). -/
  | addBoneDataAssert
  deriving DecidableEq, Repr

/-! ## Key-frame tracks (Assimp data, read only) -/

/-- Assimp's `aiVector3D`. -/
@[ext]
structure aiVector3D where
  x : ℚ
  y : ℚ
  z : ℚ
  deriving DecidableEq, Repr

namespace aiVector3D

/-- Assimp's `operator-` on `aiVector3D` (component-wise). -/
def sub (a b : aiVector3D) : aiVector3D := ⟨a.x - b.x, a.y - b.y, a.z - b.z⟩

/-- Assimp's `operator+` on `aiVector3D` (component-wise). -/
def add (a b : aiVector3D) : aiVector3D := ⟨a.x + b.x, a.y + b.y, a.z + b.z⟩

/-- Assimp's `operator*(float, aiVector3D)` (component-wise). -/
def smul (f : ℚ) (a : aiVector3D) : aiVector3D := ⟨f * a.x, f * a.y, f * a.z⟩

instance : Sub aiVector3D := ⟨sub⟩
instance : Add aiVector3D := ⟨add⟩
instance : SMul ℚ aiVector3D := ⟨smul⟩
instance : Inhabited aiVector3D := ⟨⟨0, 0, 0⟩⟩

end aiVector3D

/-- Assimp's `aiQuaternion`. -/
structure aiQuaternion where
  w : ℚ
  x : ℚ
  y : ℚ
  z : ℚ
  deriving DecidableEq, Repr

instance : Inhabited aiQuaternion := ⟨⟨1, 0, 0, 0⟩⟩

/-- The quaternion routines of the Assimp library that `modelLoader.cpp` calls.
They belong to the library, not to this repository, and involve square roots and
trigonometric functions, so the embedding takes them as parameters. -/
structure QuatOps where
  /-- The function `aiQuaternion::Interpolate(out, start, end, factor)`. -/
  Interpolate : aiQuaternion → aiQuaternion → ℚ → aiQuaternion
  /-- The function `aiQuaternion::Normalize`. -/
  Normalize : aiQuaternion → aiQuaternion
  /-- The conversion `Matrix_4f(q.GetMatrix())`. -/
  GetMatrix : aiQuaternion → Matrix_4f

/-- Assimp's `aiVectorKey` / `aiQuatKey`: a time stamp with a value. -/
structure Key (α : Type) where
  mTime : ℚ
  mValue : α
  deriving DecidableEq, Repr

/-- Time stamp `keys[i].mTime`.  Every read the code makes that the embedding
lets through is in range; the value chosen outside the range is never used. -/
def keyTime {α : Type} (keys : List (Key α)) (i : Nat) : ℚ :=
  match keys.get? i with
  | some k => k.mTime
  | none => 0

/-- Value `keys[i].mValue` (see `keyTime` for indices outside the range). -/
def keyValue {α : Type} [Inhabited α] (keys : List (Key α)) (i : Nat) : α :=
  match keys.get? i with
  | some k => k.mValue
  | none => default

/-- Assimp's `aiNodeAnim`: one animation channel.  The counts `mNumPositionKeys`,
`mNumRotationKeys`, `mNumScalingKeys` are the lengths of the three key lists. -/
structure aiNodeAnim where
  mNodeName : String
  mPositionKeys : List (Key aiVector3D)
  mRotationKeys : List (Key aiQuaternion)
  mScalingKeys : List (Key aiVector3D)
  deriving DecidableEq, Repr

/-- The scan shared by `findPosition`, `findRotation` and `findScaling`:
`for (i = i0; i < bound; i++) if (animTime < keys[i + 1].mTime) return i;`
with `remaining = bound - i` iterations left.  `none` means that the loop ran to
its end without returning. -/
def scanKeys {α : Type} (animTime : ℚ) (keys : List (Key α)) : (remaining : Nat) → (i : Nat) → Option Nat
  | 0, _ => none
  | remaining + 1, i =>
    if animTime < keyTime keys (i + 1) then some i
    else scanKeys animTime keys remaining (i + 1)

/-- `modelLoader::findPosition` (modelLoader.cpp, lines 420-431).  With no key at
all the unsigned bound `mNumPositionKeys - 1` wraps around and the first
iteration reads `mPositionKeys[1]` outside the array. -/
def findPosition (animTime : ℚ) (pNodeAnim : aiNodeAnim) : Except Abort Nat :=
  if pNodeAnim.mPositionKeys.length = 0 then .error .outOfRange
  else
    match scanKeys animTime pNodeAnim.mPositionKeys (pNodeAnim.mPositionKeys.length - 1) 0 with
    | some i => .ok i
    | none => .error .findPositionAssert

/-- `modelLoader::findRotation` (modelLoader.cpp, lines 433-445). -/
def findRotation (animTime : ℚ) (pNodeAnim : aiNodeAnim) : Except Abort Nat :=
  if ¬ pNodeAnim.mRotationKeys.length > 0 then .error .numKeysAssert
  else
    match scanKeys animTime pNodeAnim.mRotationKeys (pNodeAnim.mRotationKeys.length - 1) 0 with
    | some i => .ok i
    | none => .error .findRotationAssert

/-- `modelLoader::findScaling` (modelLoader.cpp, lines 447-459). -/
def findScaling (animTime : ℚ) (pNodeAnim : aiNodeAnim) : Except Abort Nat :=
  if ¬ pNodeAnim.mScalingKeys.length > 0 then .error .numKeysAssert
  else
    match scanKeys animTime pNodeAnim.mScalingKeys (pNodeAnim.mScalingKeys.length - 1) 0 with
    | some i => .ok i
    | none => .error .findScalingAssert

/-- The arithmetic that `calcInterpPosition` and `calcInterpScaling` share once
the bracket index is known (lines 469-477 and 509-517, identical up to the names
of the key array).  A zero `deltaTime` makes the float quotient infinite or NaN,
which fails the factor assertion. -/
def lerpKeys (animTime : ℚ) (keys : List (Key aiVector3D)) (index : Nat) : Except Abort aiVector3D :=
  let nextIndex := index + 1
  if ¬ nextIndex < keys.length then .error .nextIndexAssert
  else
    let deltaTime := keyTime keys nextIndex - keyTime keys index
    if deltaTime = 0 then .error .factorAssert
    else
      let factor := (animTime - keyTime keys index) / deltaTime
      if ¬ (factor ≥ 0 ∧ factor ≤ 1) then .error .factorAssert
      else
        let start := keyValue keys index
        let end_ := keyValue keys nextIndex
        let delta := end_ - start
        .ok (start + factor • delta)

/-- `modelLoader::calcInterpPosition` (modelLoader.cpp, lines 461-478). -/
def calcInterpPosition (animTime : ℚ) (pNodeAnim : aiNodeAnim) : Except Abort aiVector3D :=
  if pNodeAnim.mPositionKeys.length = 1 then
    .ok (keyValue pNodeAnim.mPositionKeys 0)
  else
    match findPosition animTime pNodeAnim with
    | .error e => .error e
    | .ok posIndex => lerpKeys animTime pNodeAnim.mPositionKeys posIndex

/-- `modelLoader::calcInterpScaling` (modelLoader.cpp, lines 501-518). -/
def calcInterpScaling (animTime : ℚ) (pNodeAnim : aiNodeAnim) : Except Abort aiVector3D :=
  if pNodeAnim.mScalingKeys.length = 1 then
    .ok (keyValue pNodeAnim.mScalingKeys 0)
  else
    match findScaling animTime pNodeAnim with
    | .error e => .error e
    | .ok sIndex => lerpKeys animTime pNodeAnim.mScalingKeys sIndex

/-- `modelLoader::calcInterpRotation` (modelLoader.cpp, lines 480-499). -/
def calcInterpRotation (Q : QuatOps) (animTime : ℚ) (pNodeAnim : aiNodeAnim) : Except Abort aiQuaternion :=
  if pNodeAnim.mRotationKeys.length = 1 then
    .ok (keyValue pNodeAnim.mRotationKeys 0)
  else
    match findRotation animTime pNodeAnim with
    | .error e => .error e
    | .ok rotInd =>
      let nextRotInd := rotInd + 1
      if ¬ nextRotInd < pNodeAnim.mRotationKeys.length then .error .nextIndexAssert
      else
        let deltaTime := keyTime pNodeAnim.mRotationKeys nextRotInd - keyTime pNodeAnim.mRotationKeys rotInd
        if deltaTime = 0 then .error .factorAssert
        else
          let factor := (animTime - keyTime pNodeAnim.mRotationKeys rotInd) / deltaTime
          if ¬ (factor ≥ 0 ∧ factor ≤ 1) then .error .factorAssert
          else
            let sRotQ := keyValue pNodeAnim.mRotationKeys rotInd
            let eRotQ := keyValue pNodeAnim.mRotationKeys nextRotInd
            .ok (Q.Normalize (Q.Interpolate sRotQ eRotQ factor))

/-- The record `boneInfo` (modelLoader.h, lines 57-72). -/
structure boneInfo where
  boneOffset : Matrix_4f
  finalTrans : Matrix_4f
  deriving DecidableEq, Repr

/-- The constructor `boneInfo::boneInfo()` (modelLoader.h, lines 60-71): both
matrices get `0.0` in all sixteen entries. -/
def boneInfo.new : boneInfo :=
  { boneOffset := ⟨0, 0, 0, 0, 0, 0, 0, 0, 0, 0, 0, 0, 0, 0, 0, 0⟩
    finalTrans := ⟨0, 0, 0, 0, 0, 0, 0, 0, 0, 0, 0, 0, 0, 0, 0, 0⟩ }

/-- A `std::map<string, size_t>` as an association list; a name is looked up from
the front. -/
abbrev BoneMap := List (String × Nat)

/-- The lookup `m.find(name)`: `none` stands for `m.end()`. -/
def BoneMap.find (m : BoneMap) (name : String) : Option Nat :=
  List.lookup name m

/-- The assignment `m[name] = index`: the binding of `name` is replaced, or
created when there is none. -/
def BoneMap.assign (m : BoneMap) (name : String) (index : Nat) : BoneMap :=
  (name, index) :: m.filter (fun e => e.1 ≠ name)

/-- Assimp's `aiNode`: a name, a local transform and the ordered children. -/
inductive aiNode where
  | mk (mName : String) (mTransformation : Matrix_4f) (mChildren : List aiNode)

/-- Name of a node. -/
def aiNode.mName : aiNode → String
  | .mk n _ _ => n

/-- Local transform of a node. -/
def aiNode.mTransformation : aiNode → Matrix_4f
  | .mk _ t _ => t

/-- Children of a node. -/
def aiNode.mChildren : aiNode → List aiNode
  | .mk _ _ cs => cs

/-- Assimp's `aiAnimation`, reduced to the members the loader reads. -/
structure aiAnimation where
  mTicksPerSecond : ℚ
  mChannels : List aiNodeAnim
  deriving DecidableEq, Repr

/-- Assimp's `aiScene`, reduced to the members the animation code reads. -/
structure aiScene where
  mAnimations : List aiAnimation
  mRootNode : aiNode

/-- The private members of `modelLoader` that registration and evaluation use
(modelLoader.h, lines 141-146). -/
structure modelLoader where
  m_Bonemapping : BoneMap
  numBones : Nat
  m_BoneInfo : List boneInfo
  m_GlobalInverseTransform : Matrix_4f
  theScene : aiScene

/-- The registry part of one iteration of the loop of `modelLoader::loadBones`
(modelLoader.cpp, lines 395-406) for a bone called `bName` with offset matrix
`mOffsetMatrix`: the new state and the index `bIndex` that the weights of the
bone are then stored under.  The rest of the iteration (lines 408-413) writes to
the per-vertex table only.  Line 404 writes to position `bIndex` of the record
array, which is undefined when that position does not exist. -/
def registerBone (self : modelLoader) (bName : String) (mOffsetMatrix : Matrix_4f) :
    Except Abort (modelLoader × Nat) :=
  match self.m_Bonemapping.find bName with
  | none =>
    let bIndex := self.numBones
    let bi := boneInfo.new
    let pushed := self.m_BoneInfo ++ [bi]
    match pushed.get? bIndex with
    | none => .error .outOfRange
    | some b =>
      .ok ({ self with
              numBones := self.numBones + 1
              m_BoneInfo := pushed.set bIndex { b with boneOffset := mOffsetMatrix }
              m_Bonemapping := self.m_Bonemapping.assign bName bIndex }, bIndex)
  | some bIndex => .ok (self, bIndex)

/-- The registry effect of the whole loop of `loadBones` over the bones
`(name, offset matrix)` of a mesh, and of successive calls of `loadBones`: the
per-bone step, bone after bone. -/
def registerBones (self : modelLoader) : List (String × Matrix_4f) → Except Abort modelLoader
  | [] => .ok self
  | (bName, mOffsetMatrix) :: rest =>
    match registerBone self bName mOffsetMatrix with
    | .error e => .error e
    | .ok (self1, _) => registerBones self1 rest

/-- The offset matrix stored in record `i` of the bone-record array. -/
def storedOffset (self : modelLoader) (i : Nat) : Option Matrix_4f :=
  (self.m_BoneInfo.get? i).map boneInfo.boneOffset

/-- The final transform stored in record `i` of the bone-record array. -/
def storedFinal (self : modelLoader) (i : Nat) : Option Matrix_4f :=
  (self.m_BoneInfo.get? i).map boneInfo.finalTrans

/-! ## Hierarchy evaluation -/

/-- `modelLoader::findNodeAnim` (modelLoader.cpp, lines 593-604): the first
channel whose node name equals `nodeName`, `none` for `NULL`. -/
def findNodeAnim (pAnim : aiAnimation) (nodeName : String) : Option aiNodeAnim :=
  pAnim.mChannels.find? (fun pNodeAnim => pNodeAnim.mNodeName == nodeName)

/-- The state of an evaluation pass: the loader object, and as a ghost record the
value of the local `globalTrans` of every call made so far, with the name of its
node, oldest first. -/
structure Pass where
  self : modelLoader
  visited : List (String × Matrix_4f)

/-- Lines 524-547 of `readNodeHierarchy`: the local `nodeTransformation` of a
node, static when the node has no channel, `transM * rotM * sMat` otherwise. -/
def nodeTransformation (Q : QuatOps) (pAnim : aiAnimation) (animTime : ℚ)
    (nodeName : String) (mTransformation : Matrix_4f) : Except Abort Matrix_4f :=
  match findNodeAnim pAnim nodeName with
  | none => .ok mTransformation
  | some pNodeAnim =>
    match calcInterpScaling animTime pNodeAnim with
    | .error e => .error e
    | .ok scaling =>
      let sMat := Matrix_4f.InitScaleTransform scaling.x scaling.y scaling.z
      match calcInterpRotation Q animTime pNodeAnim with
      | .error e => .error e
      | .ok rotQ =>
        let rotM := Q.GetMatrix rotQ
        match calcInterpPosition animTime pNodeAnim with
        | .error e => .error e
        | .ok trans_ =>
          let transM := Matrix_4f.InitTranslationTransform trans_.x trans_.y trans_.z
          .ok (transM * rotM * sMat)

/-- Lines 550-554 of `readNodeHierarchy`: the write of the final transform of the
bone called `nodeName`, if there is one. -/
def writeBone (self : modelLoader) (nodeName : String) (globalTrans : Matrix_4f) : Except Abort modelLoader :=
  match self.m_Bonemapping.find nodeName with
  | none => .ok self
  | some boneInd =>
    match self.m_BoneInfo.get? boneInd with
    | none => .error .outOfRange
    | some b =>
      .ok { self with
            m_BoneInfo := self.m_BoneInfo.set boneInd
              { b with finalTrans := self.m_GlobalInverseTransform * globalTrans * b.boneOffset } }

mutual
/-- `modelLoader::readNodeHierarchy` (modelLoader.cpp, lines 520-560). -/
def readNodeHierarchy (Q : QuatOps) (animTime : ℚ) : aiNode → Matrix_4f → Pass → Except Abort Pass
  | .mk mName mTransformation mChildren, parentTrans, p =>
    match p.self.theScene.mAnimations.head? with
    | none => .error .outOfRange
    | some pAnim =>
      match nodeTransformation Q pAnim animTime mName mTransformation with
      | .error e => .error e
      | .ok nodeTrans =>
        let globalTrans := parentTrans * nodeTrans
        match writeBone p.self mName globalTrans with
        | .error e => .error e
        | .ok self1 =>
          readChildren Q animTime mChildren globalTrans
            { self := self1, visited := p.visited ++ [(mName, globalTrans)] }
/-- The loop over the children (modelLoader.cpp, lines 556-559). -/
def readChildren (Q : QuatOps) (animTime : ℚ) : List aiNode → Matrix_4f → Pass → Except Abort Pass
  | [], _, p => .ok p
  | child :: rest, globalTrans, p =>
    match readNodeHierarchy Q animTime child globalTrans p with
    | .error e => .error e
    | .ok p1 => readChildren Q animTime rest globalTrans p1
end

/-- The node reached from `n` by a path of child positions. -/
def aiNode.descend : aiNode → List Nat → Option aiNode
  | n, [] => some n
  | n, i :: rest =>
    match n.mChildren.get? i with
    | some c => c.descend rest
    | none => none

/-- The nodes met on a path of child positions, the start node first and the node
reached last. -/
def aiNode.pathNodes : aiNode → List Nat → Option (List aiNode)
  | n, [] => some [n]
  | n, i :: rest =>
    match n.mChildren.get? i with
    | some c => (c.pathNodes rest).map (fun l => n :: l)
    | none => none

/-- The product `L0 * L1 * ... * Lk` of a list of matrices, the empty product
being the identity. -/
def chainProduct : List Matrix_4f → Matrix_4f
  | [] => Matrix_4f.InitIdentity
  | L :: rest => L * chainProduct rest

/-- A stand-in for the Assimp quaternion routines in examples that interpolate no
rotation. -/
def plainQuatOps : QuatOps :=
  { Interpolate := fun a _ _ => a
    Normalize := fun a => a
    GetMatrix := fun _ => Matrix_4f.InitIdentity }

/-- The members of the loader that an evaluation pass leaves alone. -/
structure Frame (s s1 : modelLoader) : Prop where
  map : s1.m_Bonemapping = s.m_Bonemapping
  count : s1.numBones = s.numBones
  ginv : s1.m_GlobalInverseTransform = s.m_GlobalInverseTransform
  scene : s1.theScene = s.theScene
  size : s1.m_BoneInfo.length = s.m_BoneInfo.length
  offsets : ∀ i, storedOffset s1 i = storedOffset s i

/-- No node of the subtree `n` has a name that the map sends to `i`. -/
def Untouched (m : BoneMap) (i : Nat) (n : aiNode) : Prop :=
  ∀ q n1, n.descend q = some n1 → m.find n1.mName ≠ some i

/-- The registry invariant: the record array has `numBones` entries, the map has
`numBones` bindings with pairwise different names, and the indices it stores are
the numbers `0 .. numBones - 1`, each once. -/
structure Dense (s : modelLoader) : Prop where
  records : s.numBones = s.m_BoneInfo.length
  entries : s.m_Bonemapping.length = s.numBones
  names : (s.m_Bonemapping.map Prod.fst).Nodup
  indices : (s.m_Bonemapping.map Prod.snd).Perm (List.range s.numBones)

/-- The registry is empty: no binding, no record, bone count 0. -/
def EmptyRegistry (s : modelLoader) : Prop :=
  s.m_Bonemapping = [] ∧ s.numBones = 0 ∧ s.m_BoneInfo = []

/-! ### Sample scenes -/

/-- The leaf of a three-level chain of nodes that each translate by (1,0,0). -/
def chainLeaf : aiNode := .mk "leaf" (Matrix_4f.InitTranslationTransform 1 0 0) []

/-- The middle node of the chain. -/
def chainMid : aiNode := .mk "mid" (Matrix_4f.InitTranslationTransform 1 0 0) [chainLeaf]

/-- The root of the chain. -/
def chainRoot : aiNode := .mk "root" (Matrix_4f.InitTranslationTransform 1 0 0) [chainMid]

/-- A scene made of the chain and one animation without channels. -/
def chainScene : aiScene :=
  { mAnimations := [{ mTicksPerSecond := 0, mChannels := [] }]
    mRootNode := chainRoot }

/-- A loader for the chain scene: one bone, `leaf`, with offset translate(0,5,0),
and the global inverse transform scale(2,2,2). -/
def chainLoader : modelLoader :=
  { m_Bonemapping := [("leaf", 0)]
    numBones := 1
    m_BoneInfo := [{ boneOffset := Matrix_4f.InitTranslationTransform 0 5 0
                     finalTrans := boneInfo.new.finalTrans }]
    m_GlobalInverseTransform := Matrix_4f.InitScaleTransform 2 2 2
    theScene := chainScene }

/-- A channel for the node `arm` whose tracks end at time 1. -/
def shortChannel : aiNodeAnim :=
  { mNodeName := "arm"
    mPositionKeys := [⟨0, ⟨0, 0, 0⟩⟩, ⟨1, ⟨1, 0, 0⟩⟩]
    mRotationKeys := [⟨0, ⟨1, 0, 0, 0⟩⟩]
    mScalingKeys := [⟨0, ⟨1, 1, 1⟩⟩, ⟨1, ⟨1, 1, 1⟩⟩] }

/-- A static node `leg` that translates by (1,0,0). -/
def legNode : aiNode := .mk "leg" (Matrix_4f.InitTranslationTransform 1 0 0) []

/-- A root with the animated child `arm` before the static child `leg`. -/
def armLegRoot : aiNode :=
  .mk "root" Matrix_4f.InitIdentity [.mk "arm" Matrix_4f.InitIdentity [], legNode]

/-- The animation of the arm-and-leg scene: the one channel of `arm`. -/
def armLegAnimation : aiAnimation := { mTicksPerSecond := 25, mChannels := [shortChannel] }

/-- The arm-and-leg scene. -/
def armLegScene : aiScene := { mAnimations := [armLegAnimation], mRootNode := armLegRoot }

/-- A loader for the arm-and-leg scene in which `leg` is the one registered bone. -/
def armLegLoader : modelLoader :=
  { m_Bonemapping := [("leg", 0)]
    numBones := 1
    m_BoneInfo := [{ boneOffset := Matrix_4f.InitIdentity, finalTrans := boneInfo.new.finalTrans }]
    m_GlobalInverseTransform := Matrix_4f.InitIdentity
    theScene := armLegScene }

/-- A loader object with an empty registry over the chain scene. -/
def emptyLoader : modelLoader :=
  { m_Bonemapping := []
    numBones := 0
    m_BoneInfo := []
    m_GlobalInverseTransform := Matrix_4f.InitIdentity
    theScene := chainScene }

/-- The registry that registering `hip` with the identity offset leaves behind. -/
def hipLoader : modelLoader :=
  { m_Bonemapping := [("hip", 0)]
    numBones := 1
    m_BoneInfo := [{ boneOffset := Matrix_4f.InitIdentity, finalTrans := boneInfo.new.finalTrans }]
    m_GlobalInverseTransform := Matrix_4f.InitIdentity
    theScene := chainScene }

/-! ## Animation clock -/

/-- Lines 586-590 of `boneTransform`: `transforms` gets the final transforms of
the records `0 .. numBones - 1`. -/
def collectTransforms (self : modelLoader) : Except Abort (List Matrix_4f) :=
  (List.range self.numBones).mapM (fun i =>
    match self.m_BoneInfo.get? i with
    | some b => .ok b.finalTrans
    | none => .error .outOfRange)

/-- The constant `BONES_PER_VERTEX` (modelLoader.h, line 31). -/
abbrev BONES_PER_VERTEX : Nat := 4

/-- The record `vBoneData` (modelLoader.h, lines 97-111): the arrays
`IDs[BONES_PER_VERTEX]` and `weights[BONES_PER_VERTEX]`. -/
@[ext]
structure vBoneData where
  IDs : Fin BONES_PER_VERTEX → Nat
  weights : Fin BONES_PER_VERTEX → ℚ

/-- The method `vBoneData::reset`, which the constructor calls (modelLoader.h,
lines 100-109): every id and every weight is 0. -/
def vBoneData.reset : vBoneData :=
  { IDs := fun _ => 0
    weights := fun _ => 0 }

/-- The loop of `vBoneData::addBoneData` (modelLoader.cpp, lines 32-42) with
`remaining` iterations left and the loop variable at `i`.  Reading `weights[i]`
with `i` outside the four slots is undefined in C++; when the loop runs to its
end the `assert(0)` of line 42 is reached. -/
def vBoneData.scanSlots (self : vBoneData) (bID : Nat) (w : ℚ) :
    (remaining : Nat) → (i : Nat) → Except Abort vBoneData
  | 0, _ => .error .addBoneDataAssert
  | remaining + 1, i =>
    if h : i < BONES_PER_VERTEX then
      if self.weights ⟨i, h⟩ = 0 then
        .ok { IDs := Function.update self.IDs ⟨i, h⟩ bID
              weights := Function.update self.weights ⟨i, h⟩ w }
      else scanSlots self bID w remaining (i + 1)
    else .error .outOfRange

/-- `vBoneData::addBoneData` (modelLoader.cpp, lines 30-43).  The bound of the
loop is `sizeof(IDs)`, the size of the array in bytes, which is
`BONES_PER_VERTEX * sizeof(size_t)`; `sizeof_size_t` is 8 on a 64-bit and 4 on a
32-bit target. -/
def vBoneData.addBoneData (sizeof_size_t : Nat) (self : vBoneData) (bID : Nat) (w : ℚ) :
    Except Abort vBoneData :=
  self.scanSlots bID w (BONES_PER_VERTEX * sizeof_size_t) 0

/-- Successive calls of `addBoneData` on one record, as `loadBones` makes them
for the weights that refer to one vertex (modelLoader.cpp, line 412). -/
def vBoneData.addAll (sizeof_size_t : Nat) (self : vBoneData) :
    List (Nat × ℚ) → Except Abort vBoneData
  | [] => .ok self
  | (bID, w) :: rest =>
    match self.addBoneData sizeof_size_t bID w with
    | .error e => .error e
    | .ok self1 => addAll sizeof_size_t self1 rest

/-- A record whose four slots are taken: ids 1, 2, 3, 4 with weight 1/4 each. -/
def fullRecord : vBoneData :=
  { IDs := ![1, 2, 3, 4]
    weights := ![1 / 4, 1 / 4, 1 / 4, 1 / 4] }

/-! ## Camera transform -/

/-- Modelled from the spec: the vector type `Vec3f` is declared in a header that
is not among the sources; it holds the three coordinates. -/
@[ext]
structure Vec3f where
  x : ℚ
  y : ℚ
  z : ℚ
  deriving DecidableEq, Repr

namespace Vec3f

/-- Modelled from the spec: `Vec3f::crossProd` is declared in a header that is not
among the sources; it is the standard cross product. -/
def crossProd (a b : Vec3f) : Vec3f :=
  ⟨a.y * b.z - a.z * b.y, a.z * b.x - a.x * b.z, a.x * b.y - a.y * b.x⟩

/-- The scalar product of two vectors. -/
def dot (a b : Vec3f) : ℚ := a.x * b.x + a.y * b.y + a.z * b.z

/-- The square of the length of a vector. -/
def lengthSq (a : Vec3f) : ℚ := a.dot a

/-- Modelled from the spec: `Vec3f::normalize` is declared in a header that is not
among the sources; it scales a vector to unit length, dividing by the square
root of `lengthSq`.  The square root is `Rat.sqrt`, which is exact on the squares
of rationals, so this function is the normalisation on every vector whose length
is rational. -/
def normalize (v : Vec3f) : Vec3f :=
  let length := Rat.sqrt v.lengthSq
  ⟨v.x / length, v.y / length, v.z / length⟩

end Vec3f

/-- `Matrix_4f::InitCameraTransform` (matrix4x4.cpp, lines 47-60).  The function
`normalize` stands for `Vec3f::normalize`, whose square root keeps it from being
a function on all rational vectors. -/
def Matrix_4f.InitCameraTransform (normalize : Vec3f → Vec3f) (Target Up : Vec3f) : Matrix_4f :=
  let N := normalize Target
  let U := normalize Up
  let U := U.crossProd N
  let V := N.crossProd U
  { m00 := U.x, m01 := U.y, m02 := U.z, m03 := 0
    m10 := V.x, m11 := V.y, m12 := V.z, m13 := 0
    m20 := N.x, m21 := N.y, m22 := N.z, m23 := 0
    m30 := 0, m31 := 0, m32 := 0, m33 := 1 }

/-- Row `i` of the upper three rows of a matrix, without the last column. -/
def Matrix_4f.axisRow (M : Matrix_4f) (i : Fin 3) : Vec3f :=
  match i with
  | 0 => ⟨M.m00, M.m01, M.m02⟩
  | 1 => ⟨M.m10, M.m11, M.m12⟩
  | 2 => ⟨M.m20, M.m21, M.m22⟩

/-- The bottom row of the matrix is `[0, 0, 0, 1]`. -/
def Matrix_4f.AffineBottomRow (M : Matrix_4f) : Prop :=
  M.m30 = 0 ∧ M.m31 = 0 ∧ M.m32 = 0 ∧ M.m33 = 1

/-- A channel with exactly one key in each of its three tracks. -/
def stillChannel : aiNodeAnim :=
  { mNodeName := "bone"
    mPositionKeys := [⟨7, ⟨1, 2, 3⟩⟩]
    mRotationKeys := [⟨7, ⟨0, 1, 0, 0⟩⟩]
    mScalingKeys := [⟨7, ⟨2, 2, 2⟩⟩] }

/-- The matrix that the constructor of `boneInfo` leaves in both members: all
sixteen entries are `0.0`. -/
def zeroMatrix : Matrix_4f := ⟨0, 0, 0, 0, 0, 0, 0, 0, 0, 0, 0, 0, 0, 0, 0, 0⟩

/-! ## Theorems -/

/-! ### Matrix algebra -/

theorem Matrix_4f.mul_def (A B : Matrix_4f) : A * B = Matrix_4f.mul A B := rfl

theorem Matrix_4f.toMatrix_apply (M : Matrix_4f) (i j : Fin 4) : M.toMatrix i j = M.entry i j := by
  fin_cases i <;> fin_cases j <;> rfl

theorem Matrix_4f.toMatrix_injective (A B : Matrix_4f) (h : A.toMatrix = B.toMatrix) : A = B := by
  have e : ∀ i j, A.entry i j = B.entry i j := fun i j => by
    rw [← Matrix_4f.toMatrix_apply, ← Matrix_4f.toMatrix_apply, h]
  ext
  · exact e 0 0
  · exact e 0 1
  · exact e 0 2
  · exact e 0 3
  · exact e 1 0
  · exact e 1 1
  · exact e 1 2
  · exact e 1 3
  · exact e 2 0
  · exact e 2 1
  · exact e 2 2
  · exact e 2 3
  · exact e 3 0
  · exact e 3 1
  · exact e 3 2
  · exact e 3 3

/-- The product of the embedding is the product of Mathlib's matrix ring. -/
theorem Matrix_4f.toMatrix_mul (A B : Matrix_4f) : (A * B).toMatrix = A.toMatrix * B.toMatrix := by
  ext i j
  fin_cases i <;> fin_cases j <;>
    simp [Matrix_4f.toMatrix, Matrix.mul_apply, Fin.sum_univ_succ, Matrix_4f.mul_def, Matrix_4f.mul,
      add_assoc]

theorem Matrix_4f.toMatrix_identity : Matrix_4f.InitIdentity.toMatrix = 1 := by
  ext i j
  rw [Matrix_4f.toMatrix_apply]
  fin_cases i <;> fin_cases j <;> simp [Matrix_4f.entry, Matrix_4f.InitIdentity]

/-- The product of a matrix with the `res` of `Inverse` is the scalar matrix
`invdet * det`: sixteen polynomial identities. -/
theorem Matrix_4f.mul_inverseRes (c : ℚ) (M : Matrix_4f) :
    M * Matrix_4f.inverseRes c M =
      { m00 := c * M.Determinant, m01 := 0, m02 := 0, m03 := 0
        m10 := 0, m11 := c * M.Determinant, m12 := 0, m13 := 0
        m20 := 0, m21 := 0, m22 := c * M.Determinant, m23 := 0
        m30 := 0, m31 := 0, m32 := 0, m33 := c * M.Determinant } := by
  ext <;> simp only [Matrix_4f.mul_def, Matrix_4f.mul, Matrix_4f.inverseRes, Matrix_4f.Determinant] <;> ring

theorem Matrix_4f.mul_assoc (A B C : Matrix_4f) : A * B * C = A * (B * C) := by
  ext <;> simp only [Matrix_4f.mul_def, Matrix_4f.mul] <;> ring

theorem Matrix_4f.identity_mul (A : Matrix_4f) : Matrix_4f.InitIdentity * A = A := by
  ext <;> simp [Matrix_4f.mul_def, Matrix_4f.mul, Matrix_4f.InitIdentity]

theorem Matrix_4f.mul_identity (A : Matrix_4f) : A * Matrix_4f.InitIdentity = A := by
  ext <;> simp [Matrix_4f.mul_def, Matrix_4f.mul, Matrix_4f.InitIdentity]

/-- C1. Inverse round trip: on a matrix with non-zero determinant `Inverse` does
not reach its assertion, and the matrix it leaves in place is a right inverse:
the product `M * M'` is the identity, both for the product of the embedding and
for the matrix product of Mathlib. -/
theorem inverse_round_trip (M : Matrix_4f) (h : M.Determinant ≠ 0) :
    (M.Inverse).asserted = false ∧
    M * (M.Inverse).self = Matrix_4f.InitIdentity ∧
    M.toMatrix * (M.Inverse).self.toMatrix = 1 := by
  have hd : (M.Inverse).self = Matrix_4f.inverseRes (1 / M.Determinant) M := by
    simp [Matrix_4f.Inverse, h]
  have hp : M * (M.Inverse).self = Matrix_4f.InitIdentity := by
    rw [hd, Matrix_4f.mul_inverseRes]
    simp [Matrix_4f.InitIdentity, h]
  refine ⟨by simp [Matrix_4f.Inverse, h], hp, ?_⟩
  rw [← Matrix_4f.toMatrix_mul, hp, Matrix_4f.toMatrix_identity]

/-- Witness of C1: the matrix with rows (2,1,0,0), (0,3,0,5), (7,0,4,0), (0,0,0,1)
has determinant 24, and `Inverse` turns it into a right inverse. -/
theorem inverse_round_trip_witness :
    (⟨2, 1, 0, 0, 0, 3, 0, 5, 7, 0, 4, 0, 0, 0, 0, 1⟩ : Matrix_4f).Determinant = 24 ∧
    ((⟨2, 1, 0, 0, 0, 3, 0, 5, 7, 0, 4, 0, 0, 0, 0, 1⟩ : Matrix_4f).Inverse).asserted = false ∧
    (⟨2, 1, 0, 0, 0, 3, 0, 5, 7, 0, 4, 0, 0, 0, 0, 1⟩ : Matrix_4f)
      * ((⟨2, 1, 0, 0, 0, 3, 0, 5, 7, 0, 4, 0, 0, 0, 0, 1⟩ : Matrix_4f).Inverse).self
      = Matrix_4f.InitIdentity :=
  have hdet : (⟨2, 1, 0, 0, 0, 3, 0, 5, 7, 0, 4, 0, 0, 0, 0, 1⟩ : Matrix_4f).Determinant = 24 := by
    norm_num [Matrix_4f.Determinant]
  have h := inverse_round_trip ⟨2, 1, 0, 0, 0, 3, 0, 5, 7, 0, 4, 0, 0, 0, 0, 1⟩ (by rw [hdet]; norm_num)
  ⟨hdet, h.1, h.2.1⟩

/-- C9. Non-invertible matrix: `Inverse` ends in its assertion exactly when the
determinant is 0, the object is then left as it was, and otherwise the object is
replaced by `res`, the cofactor expressions scaled by `1 / det`. -/
theorem inverse_asserts_iff_singular (M : Matrix_4f) :
    ((M.Inverse).asserted = true ↔ M.Determinant = 0) ∧
    ((M.Inverse).asserted = false ↔ M.Determinant ≠ 0) ∧
    (M.Inverse).self =
      (if M.Determinant = 0 then M else Matrix_4f.inverseRes (1 / M.Determinant) M) := by
  by_cases h : M.Determinant = 0 <;> simp [Matrix_4f.Inverse, h]

/-! ### Key-frame search and interpolation -/

theorem BoneMap.find_assign_self (m : BoneMap) (name : String) (i : Nat) :
    (m.assign name i).find name = some i := by
  simp [BoneMap.find, BoneMap.assign, List.lookup]

theorem BoneMap.lookup_filter_ne (m : BoneMap) (name other : String) (h : other ≠ name) :
    List.lookup other (m.filter (fun e => e.1 ≠ name)) = List.lookup other m := by
  induction m with
  | nil => rfl
  | cons e rest ih =>
    obtain ⟨k, v⟩ := e
    by_cases hk : k = name
    · subst hk
      have hne : (other == k) = false := by simpa using h
      simp [List.filter, List.lookup, hne]
      simpa using ih
    · by_cases ho : other = k
      · subst ho
        simp [List.filter, hk, List.lookup]
      · have hne : (other == k) = false := by simpa using ho
        simp [List.filter, hk, List.lookup, hne]
        simpa using ih

theorem BoneMap.find_assign_ne (m : BoneMap) (name other : String) (i : Nat) (h : other ≠ name) :
    (m.assign name i).find other = m.find other := by
  have hne : (other == name) = false := by simpa using h
  simp only [BoneMap.find, BoneMap.assign, List.lookup, hne]
  exact BoneMap.lookup_filter_ne m name other h

theorem BoneMap.filter_absent (m : BoneMap) (name : String) (h : m.find name = none) :
    m.filter (fun e => e.1 ≠ name) = m := by
  induction m with
  | nil => rfl
  | cons e rest ih =>
    obtain ⟨k, v⟩ := e
    by_cases hk : name = k
    · subst hk
      simp [BoneMap.find, List.lookup] at h
    · have hne : (name == k) = false := by simpa using hk
      have hr : BoneMap.find rest name = none := by
        simpa [BoneMap.find, List.lookup, hne] using h
      have hk2 : ¬ k = name := fun e => hk e.symm
      simp only [List.filter, ne_eq, hk2, not_false_eq_true, decide_True]
      congr 1
      exact ih hr

theorem BoneMap.find_mem (m : BoneMap) (name : String) (i : Nat) (h : m.find name = some i) :
    (name, i) ∈ m := by
  induction m with
  | nil => simp [BoneMap.find, List.lookup] at h
  | cons e rest ih =>
    obtain ⟨k, v⟩ := e
    by_cases hk : name = k
    · subst hk
      simp [BoneMap.find, List.lookup] at h
      subst h
      exact List.mem_cons_self _ _
    · have hne : (name == k) = false := by simpa using hk
      have hr : BoneMap.find rest name = some i := by
        simpa [BoneMap.find, List.lookup, hne] using h
      exact List.mem_cons_of_mem _ (ih hr)

theorem BoneMap.mem_find (m : BoneMap) (hk : (m.map Prod.fst).Nodup) (name : String) (i : Nat)
    (h : (name, i) ∈ m) : m.find name = some i := by
  induction m with
  | nil => simp at h
  | cons e rest ih =>
    obtain ⟨k, v⟩ := e
    simp only [List.map_cons, List.nodup_cons] at hk
    rcases List.mem_cons.mp h with e | e
    · cases e
      simp [BoneMap.find, List.lookup]
    · have hne : name ≠ k := by
        intro e2
        subst e2
        exact hk.1 (List.mem_map_of_mem Prod.fst e)
      have hne2 : (name == k) = false := by simpa using hne
      simp only [BoneMap.find, List.lookup, hne2]
      exact ih hk.2 e

theorem Dense.find_lt {s : modelLoader} (hd : Dense s) {name : String} {i : Nat}
    (h : s.m_Bonemapping.find name = some i) : i < s.numBones := by
  have hm : i ∈ s.m_Bonemapping.map Prod.snd :=
    List.mem_map_of_mem Prod.snd (BoneMap.find_mem _ _ _ h)
  exact List.mem_range.mp ((hd.indices.mem_iff).mp hm)

theorem Dense.injective {s : modelLoader} (hd : Dense s) {a b : String} {i : Nat}
    (ha : s.m_Bonemapping.find a = some i) (hb : s.m_Bonemapping.find b = some i) : a = b := by
  have hnd : (s.m_Bonemapping.map Prod.snd).Nodup :=
    (hd.indices.nodup_iff).mpr (List.nodup_range _)
  have hinj := List.inj_on_of_nodup_map hnd (BoneMap.find_mem _ _ _ ha) (BoneMap.find_mem _ _ _ hb) rfl
  exact congrArg Prod.fst hinj

theorem Dense.exists_name {s : modelLoader} (hd : Dense s) {i : Nat} (h : i < s.numBones) :
    ∃ a, s.m_Bonemapping.find a = some i := by
  have hm : i ∈ s.m_Bonemapping.map Prod.snd := (hd.indices.mem_iff).mpr (List.mem_range.mpr h)
  obtain ⟨⟨a, j⟩, hmem, hj⟩ := List.mem_map.mp hm
  simp only at hj
  subst hj
  exact ⟨a, BoneMap.mem_find _ hd.names _ _ hmem⟩

/-- The per-bone step on a name that the map does not hold yet. -/
theorem registerBone_unseen (s : modelLoader) (name : String) (A : Matrix_4f)
    (hf : s.m_Bonemapping.find name = none) (hle : s.numBones ≤ s.m_BoneInfo.length) :
    ∃ b, (s.m_BoneInfo ++ [boneInfo.new]).get? s.numBones = some b ∧
      registerBone s name A =
        .ok ({ s with
                numBones := s.numBones + 1
                m_BoneInfo := (s.m_BoneInfo ++ [boneInfo.new]).set s.numBones { b with boneOffset := A }
                m_Bonemapping := s.m_Bonemapping.assign name s.numBones }, s.numBones) := by
  have hlt : s.numBones < (s.m_BoneInfo ++ [boneInfo.new]).length := by simp; omega
  refine ⟨(s.m_BoneInfo ++ [boneInfo.new])[s.numBones], ?_, ?_⟩
  · simp [List.getElem?_eq_getElem hlt]
  · simp only [registerBone, hf]
    simp [List.getElem?_eq_getElem hlt]

/-- The per-bone step on a name that the map holds already. -/
theorem registerBone_seen (s : modelLoader) (name : String) (A : Matrix_4f) (i : Nat)
    (hf : s.m_Bonemapping.find name = some i) : registerBone s name A = .ok (s, i) := by
  simp [registerBone, hf]

theorem registerBone_dense (s : modelLoader) (name : String) (A : Matrix_4f) (hd : Dense s) :
    ∃ s1 i, registerBone s name A = .ok (s1, i) ∧ Dense s1 := by
  cases hf : s.m_Bonemapping.find name with
  | some i => exact ⟨s, i, registerBone_seen s name A i hf, hd⟩
  | none =>
    obtain ⟨b, _, hr⟩ := registerBone_unseen s name A hf (le_of_eq hd.records)
    refine ⟨_, _, hr, ?_⟩
    have hfil := BoneMap.filter_absent _ _ hf
    constructor
    · simp [hd.records]
    · show (BoneMap.assign s.m_Bonemapping name s.numBones).length = s.numBones + 1
      unfold BoneMap.assign
      rw [hfil]
      simp [hd.entries]
    · show ((BoneMap.assign s.m_Bonemapping name s.numBones).map Prod.fst).Nodup
      unfold BoneMap.assign
      rw [hfil]
      simp only [List.map_cons, List.nodup_cons]
      refine ⟨?_, hd.names⟩
      intro hmem
      obtain ⟨⟨a, j⟩, hm, ha⟩ := List.mem_map.mp hmem
      simp only at ha
      subst ha
      rw [BoneMap.mem_find _ hd.names _ _ hm] at hf
      cases hf
    · show ((BoneMap.assign s.m_Bonemapping name s.numBones).map Prod.snd).Perm
        (List.range (s.numBones + 1))
      unfold BoneMap.assign
      rw [hfil]
      simp only [List.map_cons, List.range_succ]
      exact (List.Perm.cons _ hd.indices).trans (List.perm_append_singleton _ _).symm

theorem registerBones_dense (regs : List (String × Matrix_4f)) :
    ∀ s : modelLoader, Dense s → ∃ s1, registerBones s regs = .ok s1 ∧ Dense s1 := by
  induction regs with
  | nil => intro s hd; exact ⟨s, rfl, hd⟩
  | cons r rest ih =>
    intro s hd
    obtain ⟨name, A⟩ := r
    obtain ⟨s1, i, h1, hd1⟩ := registerBone_dense s name A hd
    obtain ⟨s2, h2, hd2⟩ := ih s1 hd1
    exact ⟨s2, by simp [registerBones, h1, h2], hd2⟩

theorem EmptyRegistry.dense {s : modelLoader} (h : EmptyRegistry s) : Dense s := by
  obtain ⟨h1, h2, h3⟩ := h
  constructor <;> simp [h1, h2, h3]

/-- C7. Registry density invariant: starting from an empty registry, any sequence
of bone registrations runs through, and afterwards the name-to-index map is
injective, its indices are exactly `0 .. numBones - 1`, `numBones` is the number
of bone records and of map bindings, every stored index is a position of the
record array, and a name not seen so far would be given the index `numBones`. -/
theorem registry_density (s0 : modelLoader) (h0 : EmptyRegistry s0)
    (regs : List (String × Matrix_4f)) :
    ∃ s, registerBones s0 regs = .ok s ∧
      (∀ a b i, s.m_Bonemapping.find a = some i → s.m_Bonemapping.find b = some i → a = b) ∧
      (∀ i, (∃ a, s.m_Bonemapping.find a = some i) ↔ i < s.numBones) ∧
      s.numBones = s.m_BoneInfo.length ∧
      s.m_Bonemapping.length = s.numBones ∧
      (s.m_Bonemapping.map Prod.fst).Nodup ∧
      (∀ a i, s.m_Bonemapping.find a = some i → i < s.m_BoneInfo.length) ∧
      (∀ name A, s.m_Bonemapping.find name = none →
        ∃ s1, registerBone s name A = .ok (s1, s.numBones) ∧
          s1.m_Bonemapping.find name = some s.numBones ∧ s1.numBones = s.numBones + 1) := by
  obtain ⟨s, hs, hd⟩ := registerBones_dense regs s0 h0.dense
  refine ⟨s, hs, fun a b i ha hb => hd.injective ha hb,
    fun i => ⟨fun ⟨a, ha⟩ => hd.find_lt ha, fun hi => hd.exists_name hi⟩,
    hd.records, hd.entries, hd.names, fun a i ha => hd.records ▸ hd.find_lt ha, ?_⟩
  intro name A hf
  obtain ⟨b, _, hr⟩ := registerBone_unseen s name A hf (le_of_eq hd.records)
  exact ⟨_, hr, BoneMap.find_assign_self _ _ _, rfl⟩

/-- Witness of C7: registering `hip`, `knee`, `hip` from the empty registry gives
two bones, `hip` at index 0 and `knee` at index 1. -/
theorem registry_density_witness :
    EmptyRegistry emptyLoader ∧
    ∃ s, registerBones emptyLoader
        [("hip", Matrix_4f.InitIdentity), ("knee", Matrix_4f.InitScaleTransform 2 3 4),
          ("hip", Matrix_4f.InitTranslationTransform 1 0 0)] = .ok s ∧
      s.numBones = s.m_BoneInfo.length ∧ s.m_Bonemapping.length = s.numBones ∧
      s.numBones = 2 ∧ s.m_Bonemapping.find "hip" = some 0 ∧ s.m_Bonemapping.find "knee" = some 1 := by
  have h0 : EmptyRegistry emptyLoader := ⟨rfl, rfl, rfl⟩
  obtain ⟨s, hs, _, _, h3, h4, _⟩ := registry_density emptyLoader h0
    [("hip", Matrix_4f.InitIdentity), ("knee", Matrix_4f.InitScaleTransform 2 3 4),
      ("hip", Matrix_4f.InitTranslationTransform 1 0 0)]
  refine ⟨h0, s, hs, h3, h4, ?_⟩
  simp [registerBones, registerBone, emptyLoader, BoneMap.find, BoneMap.assign, List.lookup] at hs
  subst hs
  simp [BoneMap.find, List.lookup]

/-- C6 (amended). Bone registration idempotence: in a registry whose bone count
does not exceed its number of records, registering a name with `A` and then with
`B` runs through, gives the same index both times, and the second registration
leaves the loader as the first one left it (so the stored offset, the bone count
and the number of records are unchanged).  The stored offset is `A` when the
name was not registered before the first registration; when it was, the first
registration changes nothing either and the stored offset stays what it was. -/
theorem registration_idempotent (s : modelLoader) (name : String) (A B : Matrix_4f)
    (hle : s.numBones ≤ s.m_BoneInfo.length) :
    ∃ s1 i1, registerBone s name A = .ok (s1, i1) ∧
      registerBone s1 name B = .ok (s1, i1) ∧
      (s.m_Bonemapping.find name = none →
        i1 = s.numBones ∧ storedOffset s1 i1 = some A ∧ s1.numBones = s.numBones + 1 ∧
          s1.m_BoneInfo.length = s.m_BoneInfo.length + 1) ∧
      (∀ i0, s.m_Bonemapping.find name = some i0 → s1 = s ∧ i1 = i0) := by
  cases hf : s.m_Bonemapping.find name with
  | some i0 =>
    refine ⟨s, i0, registerBone_seen s name A i0 hf, registerBone_seen s name B i0 hf, ?_, ?_⟩
    · intro h; cases h
    · intro j hj; cases hj; exact ⟨rfl, rfl⟩
  | none =>
    obtain ⟨b, hb, hr⟩ := registerBone_unseen s name A hf hle
    refine ⟨_, _, hr, ?_, ?_, ?_⟩
    · exact registerBone_seen _ name B _ (BoneMap.find_assign_self _ _ _)
    · intro _
      have hlt : s.numBones < (s.m_BoneInfo ++ [boneInfo.new]).length := by simp; omega
      refine ⟨rfl, ?_, rfl, by simp⟩
      simp only [storedOffset]
      rw [List.get?_eq_getElem?, List.getElem?_set_self hlt]
      rfl
    · intro i0 h; cases h

/-- Witness of C6 (amended): in the empty registry `hip` is registered with the
identity and then with scale(2,3,4); both calls give index 0 and the stored
offset is the identity. -/
theorem registration_idempotent_witness :
    emptyLoader.numBones ≤ emptyLoader.m_BoneInfo.length ∧
    ∃ s1, registerBone emptyLoader "hip" Matrix_4f.InitIdentity = .ok (s1, 0) ∧
      registerBone s1 "hip" (Matrix_4f.InitScaleTransform 2 3 4) = .ok (s1, 0) ∧
      storedOffset s1 0 = some Matrix_4f.InitIdentity := by
  have hle : emptyLoader.numBones ≤ emptyLoader.m_BoneInfo.length := by simp [emptyLoader]
  obtain ⟨s1, i1, h1, h2, h3, _⟩ := registration_idempotent emptyLoader "hip"
    Matrix_4f.InitIdentity (Matrix_4f.InitScaleTransform 2 3 4) hle
  obtain ⟨e, h4, _⟩ := h3 (by simp [emptyLoader, BoneMap.find, List.lookup])
  have e0 : i1 = 0 := by rw [e]; rfl
  subst e0
  exact ⟨hle, s1, h1, h2, h4⟩

/-- Counterexample to C6 as stated: `hipLoader` is the registry after `hip` was
registered with the identity offset.  Registering `hip` with `A = scale(2,2,2)`
and then with `B = scale(3,3,3)` gives index 0 both times and changes nothing,
so that the stored offset is the identity and not `A`. -/
theorem registration_idempotent_counterexample :
    registerBones emptyLoader [("hip", Matrix_4f.InitIdentity)] = .ok hipLoader ∧
    registerBone hipLoader "hip" (Matrix_4f.InitScaleTransform 2 2 2) = .ok (hipLoader, 0) ∧
    registerBone hipLoader "hip" (Matrix_4f.InitScaleTransform 3 3 3) = .ok (hipLoader, 0) ∧
    storedOffset hipLoader 0 = some Matrix_4f.InitIdentity ∧
    storedOffset hipLoader 0 ≠ some (Matrix_4f.InitScaleTransform 2 2 2) := by
  refine ⟨?_, ?_, ?_, ?_, ?_⟩
  · simp [registerBones, registerBone, emptyLoader, hipLoader, BoneMap.find, BoneMap.assign,
      List.lookup, boneInfo.new]
  · simp [registerBone, hipLoader, BoneMap.find, List.lookup]
  · simp [registerBone, hipLoader, BoneMap.find, List.lookup]
  · simp [storedOffset, hipLoader]
  · simp [storedOffset, hipLoader, Matrix_4f.InitIdentity, Matrix_4f.InitScaleTransform]

/-! ### Hierarchy evaluation -/

/-- One call of `readNodeHierarchy` that runs to its end, step by step. -/
theorem readNodeHierarchy_ok (Q : QuatOps) (t : ℚ) (name : String) (L : Matrix_4f)
    (cs : List aiNode) (G : Matrix_4f) (p out : Pass)
    (h : readNodeHierarchy Q t (.mk name L cs) G p = .ok out) :
    ∃ pAnim nt self1, p.self.theScene.mAnimations.head? = some pAnim ∧
      nodeTransformation Q pAnim t name L = .ok nt ∧
      writeBone p.self name (G * nt) = .ok self1 ∧
      readChildren Q t cs (G * nt) { self := self1, visited := p.visited ++ [(name, G * nt)] }
        = .ok out := by
  unfold readNodeHierarchy at h
  split at h
  · cases h
  · rename_i pAnim hA
    split at h
    · cases h
    · rename_i nt hnt
      dsimp only at h
      split at h
      · cases h
      · rename_i self1 hw
        exact ⟨pAnim, nt, self1, hA, hnt, hw, h⟩

theorem readChildren_cons_ok (Q : QuatOps) (t : ℚ) (c : aiNode) (rest : List aiNode)
    (G : Matrix_4f) (p out : Pass) (h : readChildren Q t (c :: rest) G p = .ok out) :
    ∃ p1, readNodeHierarchy Q t c G p = .ok p1 ∧ readChildren Q t rest G p1 = .ok out := by
  unfold readChildren at h
  split at h
  · cases h
  · rename_i p1 h1
    exact ⟨p1, h1, h⟩

theorem readChildren_nil_ok (Q : QuatOps) (t : ℚ) (G : Matrix_4f) (p out : Pass)
    (h : readChildren Q t [] G p = .ok out) : out = p := by
  unfold readChildren at h
  cases h
  rfl

theorem Frame.refl (s : modelLoader) : Frame s s :=
  ⟨rfl, rfl, rfl, rfl, rfl, fun _ => rfl⟩

theorem Frame.trans {a b c : modelLoader} (h1 : Frame a b) (h2 : Frame b c) : Frame a c :=
  ⟨h2.map.trans h1.map, h2.count.trans h1.count, h2.ginv.trans h1.ginv, h2.scene.trans h1.scene,
    h2.size.trans h1.size, fun i => (h2.offsets i).trans (h1.offsets i)⟩

theorem writeBone_cases (s s1 : modelLoader) (name : String) (g : Matrix_4f)
    (h : writeBone s name g = .ok s1) :
    (s.m_Bonemapping.find name = none ∧ s1 = s) ∨
    ∃ i b, s.m_Bonemapping.find name = some i ∧ s.m_BoneInfo.get? i = some b ∧
      s1 = { s with
              m_BoneInfo := s.m_BoneInfo.set i
                { b with finalTrans := s.m_GlobalInverseTransform * g * b.boneOffset } } := by
  unfold writeBone at h
  split at h
  · rename_i hf
    cases h
    exact Or.inl ⟨hf, rfl⟩
  · rename_i i hf
    split at h
    · cases h
    · rename_i b hb
      cases h
      exact Or.inr ⟨i, b, hf, hb, rfl⟩

theorem writeBone_frame {s s1 : modelLoader} {name : String} {g : Matrix_4f}
    (h : writeBone s name g = .ok s1) : Frame s s1 := by
  rcases writeBone_cases s s1 name g h with ⟨_, e⟩ | ⟨i, b, _, hb, e⟩
  · subst e; exact Frame.refl _
  · subst e
    refine ⟨rfl, rfl, rfl, rfl, by simp, fun j => ?_⟩
    simp only [storedOffset]
    by_cases hij : i = j
    · subst hij
      have hlt : i < s.m_BoneInfo.length := by
        rcases Nat.lt_or_ge i s.m_BoneInfo.length with h1 | h1
        · exact h1
        · rw [List.get?_eq_none.mpr h1] at hb; cases hb
      simp [List.getElem?_set_self, hlt] at hb ⊢
      simp [hb]
    · simp [List.getElem?_set_ne hij]

theorem writeBone_other {s s1 : modelLoader} {name : String} {g : Matrix_4f}
    (h : writeBone s name g = .ok s1) (i : Nat) (hne : s.m_Bonemapping.find name ≠ some i) :
    s1.m_BoneInfo.get? i = s.m_BoneInfo.get? i := by
  rcases writeBone_cases s s1 name g h with ⟨_, e⟩ | ⟨j, b, hf, _, e⟩
  · subst e; rfl
  · subst e
    have hji : j ≠ i := by
      intro e2; subst e2; exact hne hf
    simp [List.getElem?_set_ne hji]

theorem writeBone_at {s s1 : modelLoader} {name : String} {g : Matrix_4f}
    (h : writeBone s name g = .ok s1) (i : Nat) (hi : s.m_Bonemapping.find name = some i) :
    ∃ b, s.m_BoneInfo.get? i = some b ∧
      s1.m_BoneInfo.get? i =
        some { b with finalTrans := s.m_GlobalInverseTransform * g * b.boneOffset } := by
  rcases writeBone_cases s s1 name g h with ⟨hf, _⟩ | ⟨j, b, hf, hb, e⟩
  · rw [hf] at hi; cases hi
  · subst e
    rw [hf] at hi
    cases hi
    have hlt : i < s.m_BoneInfo.length := by
      rcases Nat.lt_or_ge i s.m_BoneInfo.length with h1 | h1
      · exact h1
      · rw [List.get?_eq_none.mpr h1] at hb; cases hb
    exact ⟨b, hb, by simp [List.getElem?_set_self, hlt]⟩

theorem Untouched.child {m : BoneMap} {i : Nat} {name : String} {L : Matrix_4f} {cs : List aiNode}
    (h : Untouched m i (.mk name L cs)) {c : aiNode} (hc : c ∈ cs) : Untouched m i c := by
  intro q n1 hq
  obtain ⟨j, hj⟩ := List.get?_of_mem hc
  have hj2 : cs[j]? = some c := by simpa using hj
  apply h (j :: q) n1
  simp [aiNode.descend, aiNode.mChildren, hj2, hq]

theorem Untouched.self {m : BoneMap} {i : Nat} {name : String} {L : Matrix_4f} {cs : List aiNode}
    (h : Untouched m i (.mk name L cs)) : m.find name ≠ some i :=
  h [] _ rfl

mutual
/-- A call of `readNodeHierarchy` that runs to its end keeps the frame, extends
the ghost record, and leaves alone every record that no name of the subtree is
mapped to. -/
theorem readNodeHierarchy_frame (Q : QuatOps) (t : ℚ) :
    ∀ (n : aiNode) (G : Matrix_4f) (p out : Pass), readNodeHierarchy Q t n G p = .ok out →
      Frame p.self out.self ∧ (∃ extra, out.visited = p.visited ++ extra) ∧
      ∀ i, Untouched p.self.m_Bonemapping i n → out.self.m_BoneInfo.get? i = p.self.m_BoneInfo.get? i
  | .mk name L cs, G, p, out, h => by
    obtain ⟨pAnim, nt, self1, _, _, hw, hc⟩ := readNodeHierarchy_ok Q t name L cs G p out h
    obtain ⟨hf, ⟨extra, hv⟩, hu⟩ := readChildren_frame Q t cs (G * nt) _ out hc
    have hw1 := writeBone_frame hw
    refine ⟨hw1.trans hf, ⟨(name, G * nt) :: extra, by simp [hv]⟩, fun i hi => ?_⟩
    rw [hu i (fun c hc => by
      have := hi.child hc
      simpa [hw1.map] using this)]
    exact writeBone_other hw i hi.self
/-- The same for the loop over the children. -/
theorem readChildren_frame (Q : QuatOps) (t : ℚ) :
    ∀ (cs : List aiNode) (G : Matrix_4f) (p out : Pass), readChildren Q t cs G p = .ok out →
      Frame p.self out.self ∧ (∃ extra, out.visited = p.visited ++ extra) ∧
      ∀ i, (∀ c ∈ cs, Untouched p.self.m_Bonemapping i c) →
        out.self.m_BoneInfo.get? i = p.self.m_BoneInfo.get? i
  | [], G, p, out, h => by
    have e := readChildren_nil_ok Q t G p out h
    subst e
    exact ⟨Frame.refl _, ⟨[], by simp⟩, fun _ _ => rfl⟩
  | c :: rest, G, p, out, h => by
    obtain ⟨p1, h1, h2⟩ := readChildren_cons_ok Q t c rest G p out h
    obtain ⟨f1, ⟨e1, v1⟩, u1⟩ := readNodeHierarchy_frame Q t c G p p1 h1
    obtain ⟨f2, ⟨e2, v2⟩, u2⟩ := readChildren_frame Q t rest G p1 out h2
    refine ⟨f1.trans f2, ⟨e1 ++ e2, by simp [v2, v1]⟩, fun i hi => ?_⟩
    rw [u2 i (fun c2 hc2 => by
      have := hi c2 (List.mem_cons_of_mem _ hc2)
      simpa [f1.map] using this)]
    exact u1 i (hi c (List.mem_cons_self _ _))
end

/-- The loop over the children, split at the child in position `j`: the passes
before and after that child keep the frame and leave alone every record that no
name below the other children is mapped to. -/
theorem readChildren_split (Q : QuatOps) (t : ℚ) :
    ∀ (cs : List aiNode) (j : Nat) (c : aiNode) (G : Matrix_4f) (p out : Pass),
      cs.get? j = some c → readChildren Q t cs G p = .ok out →
      ∃ pa pb, readNodeHierarchy Q t c G pa = .ok pb ∧
        Frame p.self pa.self ∧ (∃ e, pa.visited = p.visited ++ e) ∧
        Frame pb.self out.self ∧ (∃ e, out.visited = pb.visited ++ e) ∧
        ∀ i, (∀ k c1, k ≠ j → cs.get? k = some c1 → Untouched p.self.m_Bonemapping i c1) →
          pa.self.m_BoneInfo.get? i = p.self.m_BoneInfo.get? i ∧
          out.self.m_BoneInfo.get? i = pb.self.m_BoneInfo.get? i := by
  intro cs
  induction cs with
  | nil => intro j c G p out hj _; simp at hj
  | cons c0 rest ih =>
    intro j c G p out hj h
    obtain ⟨p1, h1, h2⟩ := readChildren_cons_ok Q t c0 rest G p out h
    obtain ⟨f1, v1, u1⟩ := readNodeHierarchy_frame Q t c0 G p p1 h1
    cases j with
    | zero =>
      have e : c0 = c := by simpa using hj
      subst e
      obtain ⟨f2, v2, u2⟩ := readChildren_frame Q t rest G p1 out h2
      refine ⟨p, p1, h1, Frame.refl _, ⟨[], by simp⟩, f2, v2, fun i hi => ⟨rfl, ?_⟩⟩
      apply u2 i
      intro c1 hc1
      obtain ⟨k, hk⟩ := List.get?_of_mem hc1
      have := hi (k + 1) c1 (by omega) (by simpa using hk)
      simpa [f1.map] using this
    | succ j1 =>
      have hj1 : rest.get? j1 = some c := by simpa using hj
      obtain ⟨pa, pb, hr, fa, ⟨ea, va⟩, fb, vb, hu⟩ := ih j1 c G p1 out hj1 h2
      obtain ⟨e1, v1⟩ := v1
      refine ⟨pa, pb, hr, f1.trans fa, ⟨e1 ++ ea, by simp [va, v1]⟩, fb, vb, fun i hi => ?_⟩
      have hrest : ∀ k c1, k ≠ j1 → rest.get? k = some c1 →
          Untouched p1.self.m_Bonemapping i c1 := by
        intro k c1 hk hc1
        have := hi (k + 1) c1 (by omega) (by simpa using hc1)
        simpa [f1.map] using this
      obtain ⟨ha, hb⟩ := hu i hrest
      refine ⟨?_, hb⟩
      rw [ha]
      exact u1 i (hi 0 c0 (by omega) (by simp))

theorem nodeTransformation_static (Q : QuatOps) (pAnim : aiAnimation) (t : ℚ) (name : String)
    (L : Matrix_4f) (h : findNodeAnim pAnim name = none) :
    nodeTransformation Q pAnim t name L = .ok L := by
  simp [nodeTransformation, h]

/-- The heart of C2: along a path without animated nodes the call for the node
reached has `globalTrans = parentTrans * L0 * ... * Lk`, and a record that only
the name of that node is mapped to ends up with
`m_GlobalInverseTransform * globalTrans * boneOffset`. -/
theorem readNodeHierarchy_path (Q : QuatOps) (t : ℚ) (pAnim : aiAnimation) :
    ∀ (path : List Nat) (n : aiNode) (G : Matrix_4f) (p out : Pass) (nodes : List aiNode)
      (N : aiNode),
      readNodeHierarchy Q t n G p = .ok out →
      n.pathNodes path = some nodes → n.descend path = some N →
      p.self.theScene.mAnimations.head? = some pAnim →
      (∀ m ∈ nodes, findNodeAnim pAnim m.mName = none) →
      (N.mName, G * chainProduct (nodes.map aiNode.mTransformation)) ∈ out.visited ∧
      ∀ i, p.self.m_Bonemapping.find N.mName = some i →
        (∀ q n1, n.descend q = some n1 → q ≠ path → p.self.m_Bonemapping.find n1.mName ≠ some i) →
        ∃ b, p.self.m_BoneInfo.get? i = some b ∧
          out.self.m_BoneInfo.get? i =
            some { b with
                   finalTrans := p.self.m_GlobalInverseTransform *
                     (G * chainProduct (nodes.map aiNode.mTransformation)) * b.boneOffset } := by
  intro path
  induction path with
  | nil =>
    intro n G p out nodes N h hnodes hN hA hstatic
    obtain ⟨name, L, cs⟩ := n
    have e1 : nodes = [aiNode.mk name L cs] := by
      simp [aiNode.pathNodes] at hnodes; exact hnodes.symm
    have e2 : N = aiNode.mk name L cs := by
      simp [aiNode.descend] at hN; exact hN.symm
    subst e1 e2
    obtain ⟨pAnim1, nt, self1, hA1, hnt, hw, hc⟩ := readNodeHierarchy_ok Q t name L cs G p out h
    rw [hA] at hA1
    cases hA1
    have hs : findNodeAnim pAnim name = none := hstatic _ (List.mem_singleton_self _)
    rw [nodeTransformation_static Q pAnim t name L hs] at hnt
    cases hnt
    obtain ⟨fc, ⟨extra, hv⟩, hu⟩ := readChildren_frame Q t cs (G * L) _ out hc
    have hprod : G * chainProduct (List.map aiNode.mTransformation [aiNode.mk name L cs])
        = G * L := by
      simp [chainProduct, aiNode.mTransformation, Matrix_4f.mul_identity]
    rw [hprod]
    refine ⟨by simp [hv, aiNode.mName], fun i hi honly => ?_⟩
    obtain ⟨b, hb, hb1⟩ := writeBone_at hw i hi
    refine ⟨b, hb, ?_⟩
    rw [← hb1]
    apply hu i
    intro c hc1 q n1 hq
    obtain ⟨j, hj⟩ := List.get?_of_mem hc1
    have hj2 : cs[j]? = some c := by simpa using hj
    have := honly (j :: q) n1 (by simp [aiNode.descend, aiNode.mChildren, hj2, hq]) (by simp)
    simpa [(writeBone_frame hw).map] using this
  | cons j rest ih =>
    intro n G p out nodes N h hnodes hN hA hstatic
    obtain ⟨name, L, cs⟩ := n
    cases hc : cs.get? j with
    | none =>
      have hc2 : cs[j]? = none := by simpa using hc
      simp [aiNode.descend, aiNode.mChildren, hc2] at hN
    | some c =>
      have hc2 : cs[j]? = some c := by simpa using hc
      have hN1 : c.descend rest = some N := by
        simpa [aiNode.descend, aiNode.mChildren, hc2] using hN
      obtain ⟨nodes1, hn1, e1⟩ : ∃ nodes1, c.pathNodes rest = some nodes1 ∧
          nodes = aiNode.mk name L cs :: nodes1 := by
        simp only [aiNode.pathNodes, aiNode.mChildren, hc] at hnodes
        cases hp : c.pathNodes rest with
        | none => simp [hp] at hnodes
        | some l => exact ⟨l, rfl, by simp [hp] at hnodes; exact hnodes.symm⟩
      subst e1
      obtain ⟨pAnim1, nt, self1, hA1, hnt, hw, hch⟩ := readNodeHierarchy_ok Q t name L cs G p out h
      rw [hA] at hA1
      cases hA1
      have hs : findNodeAnim pAnim name = none := hstatic _ (List.mem_cons_self _ _)
      rw [nodeTransformation_static Q pAnim t name L hs] at hnt
      cases hnt
      have fw := writeBone_frame hw
      obtain ⟨pa, pb, hr, fa, _, fb, ⟨eb, vb⟩, hu⟩ :=
        readChildren_split Q t cs j c (G * L) _ out hc hch
      have fpa : Frame p.self pa.self := fw.trans fa
      have hA2 : pa.self.theScene.mAnimations.head? = some pAnim := by rw [fpa.scene]; exact hA
      obtain ⟨hvis, hbone⟩ := ih c (G * L) pa pb nodes1 N hr hn1 hN1 hA2
        (fun m hm => hstatic m (List.mem_cons_of_mem _ hm))
      have hprod : G * chainProduct (List.map aiNode.mTransformation (aiNode.mk name L cs :: nodes1))
          = G * L * chainProduct (List.map aiNode.mTransformation nodes1) := by
        simp [chainProduct, aiNode.mTransformation, Matrix_4f.mul_assoc]
      rw [hprod]
      refine ⟨by rw [vb]; exact List.mem_append_left _ hvis, fun i hi honly => ?_⟩
      have hother : ∀ k c1, k ≠ j → cs.get? k = some c1 →
          Untouched self1.m_Bonemapping i c1 := by
        intro k c1 hk hc1 q n1 hq
        have hc3 : cs[k]? = some c1 := by simpa using hc1
        have := honly (k :: q) n1 (by simp [aiNode.descend, aiNode.mChildren, hc3, hq])
          (by simp [hk])
        simpa [fw.map] using this
      obtain ⟨hbefore, hafter⟩ := hu i hother
      have hroot : p.self.m_Bonemapping.find name ≠ some i := by
        have := honly [] (aiNode.mk name L cs) rfl (by simp)
        simpa [aiNode.mName] using this
      obtain ⟨b, hb, hb1⟩ := hbone i (by rw [fpa.map]; exact hi) (by
        intro q n1 hq hne
        have := honly (j :: q) n1 (by simp [aiNode.descend, aiNode.mChildren, hc2, hq])
          (by simpa using hne)
        simpa [fpa.map] using this)
      refine ⟨b, ?_, ?_⟩
      · rw [← hb, hbefore]
        exact (writeBone_other hw i hroot).symm
      · rw [hafter, hb1, fpa.ginv]

/-- C2 (amended). Hierarchy composition: when a pass started at the root with the
identity as parent transform runs to its end, then for every node `N` reached by
a path `root = N0, ..., Nk = N` on which no node has an animation channel, the
call for `N` has `globalTrans = L0 * L1 * ... * Lk`; and if the name of `N` is
mapped to the index `i` by a one-to-one map and no other node carries that name,
record `i` keeps its offset and ends with the final transform
`m_GlobalInverseTransform * globalTrans * boneOffset`. -/
theorem hierarchy_composition (Q : QuatOps) (animTime : ℚ) (self : modelLoader) (root N : aiNode)
    (path : List Nat) (nodes : List aiNode) (pAnim : aiAnimation) (out : Pass)
    (hrun : readNodeHierarchy Q animTime root Matrix_4f.InitIdentity { self := self, visited := [] }
      = .ok out)
    (hnodes : root.pathNodes path = some nodes) (hN : root.descend path = some N)
    (hanim : self.theScene.mAnimations.head? = some pAnim)
    (hstatic : ∀ m ∈ nodes, findNodeAnim pAnim m.mName = none) :
    (N.mName, chainProduct (nodes.map aiNode.mTransformation)) ∈ out.visited ∧
    ∀ i, self.m_Bonemapping.find N.mName = some i →
      (∀ a b j, self.m_Bonemapping.find a = some j → self.m_Bonemapping.find b = some j → a = b) →
      (∀ q n1, root.descend q = some n1 → q ≠ path → n1.mName ≠ N.mName) →
      ∃ offset, storedOffset self i = some offset ∧ storedOffset out.self i = some offset ∧
        storedFinal out.self i =
          some (self.m_GlobalInverseTransform * chainProduct (nodes.map aiNode.mTransformation)
            * offset) := by
  obtain ⟨hvis, hbone⟩ := readNodeHierarchy_path Q animTime pAnim path root Matrix_4f.InitIdentity
    { self := self, visited := [] } out nodes N hrun hnodes hN hanim hstatic
  rw [Matrix_4f.identity_mul] at hvis hbone
  refine ⟨hvis, fun i hi hinj honly => ?_⟩
  obtain ⟨b, hb, hb1⟩ := hbone i hi (fun q n1 hq hne hfind => honly q n1 hq hne (hinj _ _ i hfind hi))
  refine ⟨b.boneOffset, ?_, ?_, ?_⟩
  · simp only [storedOffset]; rw [hb]; rfl
  · simp only [storedOffset]; rw [hb1]; rfl
  · simp only [storedFinal]; rw [hb1]; rfl

theorem BoneMap.find_singleton (k a : String) (v j : Nat)
    (h : BoneMap.find [(k, v)] a = some j) : a = k := by
  by_cases hak : a = k
  · exact hak
  · have hne : (a == k) = false := by simpa using hak
    simp [BoneMap.find, List.lookup, hne] at h

/-- The pass over the three-level chain, evaluated. -/
theorem chainRoot_run :
    readNodeHierarchy plainQuatOps 0 chainRoot Matrix_4f.InitIdentity
        { self := chainLoader, visited := [] } =
      .ok { self := { chainLoader with
                      m_BoneInfo := [{ boneOffset := Matrix_4f.InitTranslationTransform 0 5 0
                                       finalTrans := ⟨2, 0, 0, 6, 0, 2, 0, 10, 0, 0, 2, 0, 0, 0, 0, 1⟩ }] }
            visited := [("root", Matrix_4f.InitTranslationTransform 1 0 0),
                        ("mid", Matrix_4f.InitTranslationTransform 2 0 0),
                        ("leaf", Matrix_4f.InitTranslationTransform 3 0 0)] } := by
  simp [readNodeHierarchy, readChildren, chainRoot, chainMid, chainLeaf, chainLoader, chainScene,
    nodeTransformation, findNodeAnim, writeBone, BoneMap.find, List.lookup, Matrix_4f.mul_def,
    Matrix_4f.mul, Matrix_4f.InitIdentity, Matrix_4f.InitTranslationTransform,
    Matrix_4f.InitScaleTransform, boneInfo.new]
  norm_num

theorem chainProduct_chain :
    chainProduct ([chainRoot, chainMid, chainLeaf].map aiNode.mTransformation) =
      Matrix_4f.InitTranslationTransform 3 0 0 := by
  simp [chainProduct, chainRoot, chainMid, chainLeaf, aiNode.mTransformation, Matrix_4f.mul_def,
    Matrix_4f.mul, Matrix_4f.InitIdentity, Matrix_4f.InitTranslationTransform]
  norm_num

/-- Witness of C2: in the three-level chain of translate(1,0,0) nodes the leaf gets
the global transform translate(3,0,0), and the bone `leaf` the final transform
`scale(2,2,2) * translate(3,0,0) * translate(0,5,0)`. -/
theorem hierarchy_composition_witness :
    ∃ out, readNodeHierarchy plainQuatOps 0 chainRoot Matrix_4f.InitIdentity
        { self := chainLoader, visited := [] } = .ok out ∧
      ("leaf", Matrix_4f.InitTranslationTransform 3 0 0) ∈ out.visited ∧
      storedFinal out.self 0 =
        some (Matrix_4f.InitScaleTransform 2 2 2 * Matrix_4f.InitTranslationTransform 3 0 0
          * Matrix_4f.InitTranslationTransform 0 5 0) := by
  have h := hierarchy_composition plainQuatOps 0 chainLoader chainRoot chainLeaf [0, 0]
    [chainRoot, chainMid, chainLeaf] { mTicksPerSecond := 0, mChannels := [] } _ chainRoot_run
    (by simp [aiNode.pathNodes, chainRoot, chainMid, aiNode.mChildren])
    (by simp [aiNode.descend, chainRoot, chainMid, aiNode.mChildren])
    (by simp [chainLoader, chainScene])
    (by simp [findNodeAnim])
  rw [chainProduct_chain] at h
  refine ⟨_, chainRoot_run, by simp, ?_⟩
  obtain ⟨offset, h1, _, h3⟩ := h.2 0 (by simp [chainLeaf, aiNode.mName, chainLoader, BoneMap.find, List.lookup])
    (fun a b j ha hb =>
      (BoneMap.find_singleton "leaf" a 0 j ha).trans (BoneMap.find_singleton "leaf" b 0 j hb).symm)
    (by
      intro q n1 hq hne
      match q, hq, hne with
      | [], hq, _ =>
        simp [aiNode.descend] at hq; subst hq; simp [chainRoot, chainLeaf, aiNode.mName]
      | [0], hq, _ =>
        simp [aiNode.descend, chainRoot, aiNode.mChildren] at hq
        subst hq; simp [chainMid, chainLeaf, aiNode.mName]
      | [0, 0], _, hne => exact absurd rfl hne
      | (0 :: 0 :: _ :: _), hq, _ =>
        simp [aiNode.descend, chainRoot, chainMid, chainLeaf, aiNode.mChildren] at hq
      | (0 :: (_ + 1) :: _), hq, _ =>
        simp [aiNode.descend, chainRoot, chainMid, aiNode.mChildren] at hq
      | ((_ + 1) :: _), hq, _ =>
        simp [aiNode.descend, chainRoot, aiNode.mChildren] at hq)
  have e : offset = Matrix_4f.InitTranslationTransform 0 5 0 := by
    simp [storedOffset, chainLoader] at h1; exact h1.symm
  rw [h3, e]
  rfl

/-- Counterexample to C2 as stated: in the arm-and-leg scene the static node `leg`
is reached by the path `[1]` through static nodes only and is the one registered
bone, yet at time 5 the pass ends in the assertion of `findScaling` at the node
`arm`, which comes first, so that no global transform of `leg` is computed and no
final transform is written. -/
theorem hierarchy_composition_counterexample :
    armLegRoot.pathNodes [1] = some [armLegRoot, legNode] ∧
    armLegRoot.descend [1] = some legNode ∧
    (∀ m ∈ [armLegRoot, legNode], findNodeAnim armLegAnimation m.mName = none) ∧
    armLegLoader.m_Bonemapping.find legNode.mName = some 0 ∧
    readNodeHierarchy plainQuatOps 5 armLegRoot Matrix_4f.InitIdentity
      { self := armLegLoader, visited := [] } = .error .findScalingAssert ∧
    ¬ ∃ out, readNodeHierarchy plainQuatOps 5 armLegRoot Matrix_4f.InitIdentity
        { self := armLegLoader, visited := [] } = .ok out ∧
      (legNode.mName, chainProduct ([armLegRoot, legNode].map aiNode.mTransformation))
        ∈ out.visited := by
  have hrun : readNodeHierarchy plainQuatOps 5 armLegRoot Matrix_4f.InitIdentity
      { self := armLegLoader, visited := [] } = .error .findScalingAssert := by
    simp [readNodeHierarchy, readChildren, armLegRoot, armLegLoader, armLegScene, armLegAnimation,
      shortChannel, legNode, nodeTransformation, findNodeAnim, writeBone, BoneMap.find,
      List.lookup, calcInterpScaling, findScaling, scanKeys, keyTime]
  refine ⟨by simp [aiNode.pathNodes, armLegRoot, aiNode.mChildren],
    by simp [aiNode.descend, armLegRoot, aiNode.mChildren],
    by simp [findNodeAnim, armLegAnimation, shortChannel, armLegRoot, legNode, aiNode.mName],
    by simp [armLegLoader, legNode, aiNode.mName, BoneMap.find, List.lookup], hrun, ?_⟩
  rintro ⟨out, h, _⟩
  rw [hrun] at h
  cases h

/-! ### Animation clock -/

/-- The scan stores the pair in the first slot of weight 0 it meets. -/
theorem vBoneData.scanSlots_first_zero (r : vBoneData) (bID : Nat) (w : ℚ)
    (j : Fin BONES_PER_VERTEX) (hj : r.weights j = 0) :
    ∀ (remaining i : Nat), i ≤ j.val → j.val < i + remaining →
      (∀ k : Fin BONES_PER_VERTEX, i ≤ k.val → k.val < j.val → r.weights k ≠ 0) →
      r.scanSlots bID w remaining i =
        .ok { IDs := Function.update r.IDs j bID, weights := Function.update r.weights j w } := by
  intro remaining
  induction remaining with
  | zero => intro i h1 h2; omega
  | succ n ih =>
    intro i h1 h2 hk
    have hi : i < BONES_PER_VERTEX := lt_of_le_of_lt h1 j.isLt
    unfold vBoneData.scanSlots
    rw [dif_pos hi]
    by_cases hw : r.weights ⟨i, hi⟩ = 0
    · rw [if_pos hw]
      have e : (⟨i, hi⟩ : Fin BONES_PER_VERTEX) = j := by
        apply Fin.ext
        rcases Nat.eq_or_lt_of_le h1 with e1 | e1
        · exact e1
        · exact absurd hw (hk ⟨i, hi⟩ (le_refl _) e1)
      rw [e]
    · rw [if_neg hw]
      have hne : i ≠ j.val := by
        intro e
        apply hw
        have e2 : (⟨i, hi⟩ : Fin BONES_PER_VERTEX) = j := Fin.ext e
        rw [e2]; exact hj
      exact ih (i + 1) (by omega) (by omega) (fun k h3 h4 => hk k (by omega) h4)

/-- On a record without a slot of weight 0 a scan of more than four iterations
leaves the array before it can reach the assertion. -/
theorem vBoneData.scanSlots_full (r : vBoneData) (bID : Nat) (w : ℚ)
    (hfull : ∀ j, r.weights j ≠ 0) :
    ∀ (remaining i : Nat), i ≤ BONES_PER_VERTEX → BONES_PER_VERTEX < i + remaining →
      r.scanSlots bID w remaining i = .error .outOfRange := by
  intro remaining
  induction remaining with
  | zero => intro i h1 h2; omega
  | succ n ih =>
    intro i h1 h2
    unfold vBoneData.scanSlots
    by_cases hi : i < BONES_PER_VERTEX
    · rw [dif_pos hi, if_neg (hfull _)]
      exact ih (i + 1) (by omega) (by omega)
    · rw [dif_neg hi]

/-- Every non-empty set of slots has a lowest member. -/
theorem vBoneData.lowest_zero (r : vBoneData) (h : ∃ j, r.weights j = 0) :
    ∃ j, r.weights j = 0 ∧ ∀ k : Fin BONES_PER_VERTEX, k.val < j.val → r.weights k ≠ 0 := by
  classical
  obtain ⟨j0, hj0⟩ := h
  have hex : ∃ n, ∃ h : n < BONES_PER_VERTEX, r.weights ⟨n, h⟩ = 0 := ⟨j0.val, j0.isLt, hj0⟩
  obtain ⟨hlt, hz⟩ := Nat.find_spec hex
  refine ⟨⟨Nat.find hex, hlt⟩, hz, fun k hk hkz => ?_⟩
  exact Nat.find_min hex hk ⟨k.isLt, hkz⟩

/-- On a record without a slot of weight 0 a scan that stays inside the four
slots ends in the assertion. -/
theorem vBoneData.scanSlots_full_inside (r : vBoneData) (bID : Nat) (w : ℚ)
    (hfull : ∀ j, r.weights j ≠ 0) :
    ∀ (remaining i : Nat), i + remaining ≤ BONES_PER_VERTEX →
      r.scanSlots bID w remaining i = .error .addBoneDataAssert := by
  intro remaining
  induction remaining with
  | zero => intro i _; rfl
  | succ n ih =>
    intro i h1
    have hi : i < BONES_PER_VERTEX := by omega
    unfold vBoneData.scanSlots
    rw [dif_pos hi, if_neg (hfull _)]
    exact ih (i + 1) (by omega)

theorem vBoneData.addBoneData_lowest (sz : Nat) (hsz : 0 < sz) (r : vBoneData) (bID : Nat) (w : ℚ)
    (j : Fin BONES_PER_VERTEX) (hj : r.weights j = 0)
    (hlow : ∀ k : Fin BONES_PER_VERTEX, k.val < j.val → r.weights k ≠ 0) :
    r.addBoneData sz bID w =
      .ok { IDs := Function.update r.IDs j bID, weights := Function.update r.weights j w } := by
  unfold vBoneData.addBoneData
  apply vBoneData.scanSlots_first_zero r bID w j hj _ 0 (Nat.zero_le _)
  · have h4 : BONES_PER_VERTEX * 1 ≤ BONES_PER_VERTEX * sz := Nat.mul_le_mul_left _ hsz
    have := j.isLt
    omega
  · intro k _ hk; exact hlow k hk

/-- C11 (the code at the failing input). On the full record `fullRecord` a fifth
pair does not end in the assertion: with `sizeof(IDs)` equal to 32 (or 16) the
scan goes on to read `weights[4]`, outside the array. -/
theorem addBoneData_full_leaves_array :
    (∀ j, fullRecord.weights j ≠ 0) ∧
    fullRecord.addBoneData 8 5 (1 / 2) = .error .outOfRange ∧
    fullRecord.addBoneData 4 5 (1 / 2) = .error .outOfRange ∧
    fullRecord.addBoneData 8 5 (1 / 2) ≠ .error .addBoneDataAssert ∧
    fullRecord.scanSlots 5 (1 / 2) BONES_PER_VERTEX 0 = .error .addBoneDataAssert := by
  have hfull : ∀ j, fullRecord.weights j ≠ 0 := by
    intro j
    fin_cases j <;> norm_num [fullRecord]
  have h8 : fullRecord.addBoneData 8 5 (1 / 2) = .error .outOfRange :=
    vBoneData.scanSlots_full fullRecord 5 (1 / 2) hfull _ 0 (by omega) (by norm_num)
  have h4 : fullRecord.addBoneData 4 5 (1 / 2) = .error .outOfRange :=
    vBoneData.scanSlots_full fullRecord 5 (1 / 2) hfull _ 0 (by omega) (by norm_num)
  refine ⟨hfull, h8, h4, ?_, ?_⟩
  · rw [h8]; intro h; cases h
  · exact vBoneData.scanSlots_full_inside fullRecord 5 (1 / 2) hfull _ 0 (by omega)

/-- Filling a record whose first `m` slots are taken and whose other slots have
weight 0 with pairs of non-zero weight: the pairs land in the slots `m`, `m + 1`,
... in their order and nothing else changes. -/
theorem vBoneData.addAll_filled (sz : Nat) (hsz : 0 < sz) :
    ∀ (pairs : List (Nat × ℚ)) (r : vBoneData) (m : Nat),
      m + pairs.length ≤ BONES_PER_VERTEX → (∀ p ∈ pairs, p.2 ≠ 0) →
      (∀ k : Fin BONES_PER_VERTEX, k.val < m → r.weights k ≠ 0) →
      (∀ k : Fin BONES_PER_VERTEX, m ≤ k.val → r.weights k = 0) →
      ∃ r1, r.addAll sz pairs = .ok r1 ∧
        ∀ i : Fin BONES_PER_VERTEX,
          (r1.IDs i, r1.weights i) =
            if m ≤ i.val ∧ i.val < m + pairs.length then pairs.getD (i.val - m) (0, 0)
            else (r.IDs i, r.weights i) := by
  intro pairs
  induction pairs with
  | nil =>
    intro r m _ _ _ _
    refine ⟨r, rfl, fun i => ?_⟩
    have : ¬ (m ≤ i.val ∧ i.val < m + ([] : List (Nat × ℚ)).length) := by
      simp only [List.length_nil]; omega
    rw [if_neg this]
  | cons p rest ih =>
    intro r m hlen hnz htaken hfree
    obtain ⟨b, w⟩ := p
    simp only [List.length_cons] at hlen
    have hm : m < BONES_PER_VERTEX := by omega
    have hadd := vBoneData.addBoneData_lowest sz hsz r b w ⟨m, hm⟩ (hfree ⟨m, hm⟩ (le_refl _))
      (fun k hk => htaken k hk)
    have hw : w ≠ 0 := hnz (b, w) (List.mem_cons_self _ _)
    obtain ⟨r1, hr1, hslots⟩ := ih
      { IDs := Function.update r.IDs ⟨m, hm⟩ b, weights := Function.update r.weights ⟨m, hm⟩ w }
      (m + 1) (by omega) (fun q hq => hnz q (List.mem_cons_of_mem _ hq))
      (fun k hk => by
        by_cases e : k = ⟨m, hm⟩
        · subst e; simpa using hw
        · have hlt : k.val < m := by
            have : k.val ≠ m := fun h => e (Fin.ext h)
            omega
          simpa [Function.update_noteq e] using htaken k hlt)
      (fun k hk => by
        have e : k ≠ ⟨m, hm⟩ := by
          intro h; subst h; simp at hk
        simpa [Function.update_noteq e] using hfree k (by omega))
    refine ⟨r1, by simp only [vBoneData.addAll, hadd]; exact hr1, fun i => ?_⟩
    rw [hslots i]
    by_cases h1 : m + 1 ≤ i.val ∧ i.val < m + 1 + rest.length
    · have h2 : m ≤ i.val ∧ i.val < m + (rest.length + 1) := by omega
      have e : i.val - m = (i.val - (m + 1)) + 1 := by omega
      rw [if_pos h1, if_pos (by simpa using h2), e, List.getD_cons_succ]
    · rw [if_neg h1]
      by_cases h3 : i = ⟨m, hm⟩
      · subst h3
        have h2 : m ≤ m ∧ m < m + (rest.length + 1) := by omega
        simp
      · have hne : i.val ≠ m := fun h => h3 (Fin.ext h)
        have h2 : ¬ (m ≤ i.val ∧ i.val < m + (rest.length + 1)) := by omega
        rw [if_neg (by simpa using h2)]
        simp [Function.update_noteq h3]

/-- C18. Zero-weight influences do not occupy a slot: `addBoneData` writes the
pair into the lowest slot whose weight is 0; on a record with such a slot,
adding `(b1, 0)` and then `(b2, w)` gives the record that adding `(b2, w)` alone
gives; and a fresh record filled with `k <= 4` pairs of non-zero weight holds
those pairs in their order in the slots `0 .. k - 1`, the other slots staying
`(0, 0)`. -/
theorem zero_weight_does_not_occupy (sizeof_size_t : Nat) (hsz : 0 < sizeof_size_t) :
    (∀ (r : vBoneData) (b : Nat) (w : ℚ), (∃ j, r.weights j = 0) →
      ∃ j, r.weights j = 0 ∧ (∀ k : Fin BONES_PER_VERTEX, k.val < j.val → r.weights k ≠ 0) ∧
        r.addBoneData sizeof_size_t b w =
          .ok { IDs := Function.update r.IDs j b, weights := Function.update r.weights j w }) ∧
    (∀ (r : vBoneData) (b1 b2 : Nat) (w : ℚ), (∃ j, r.weights j = 0) →
      ∃ r1 r2, r.addBoneData sizeof_size_t b1 0 = .ok r1 ∧
        r1.addBoneData sizeof_size_t b2 w = .ok r2 ∧
        r.addBoneData sizeof_size_t b2 w = .ok r2) ∧
    (∀ pairs : List (Nat × ℚ), pairs.length ≤ BONES_PER_VERTEX → (∀ p ∈ pairs, p.2 ≠ 0) →
      ∃ r, vBoneData.reset.addAll sizeof_size_t pairs = .ok r ∧
        ∀ i : Fin BONES_PER_VERTEX, (r.IDs i, r.weights i) = pairs.getD i.val (0, 0)) := by
  refine ⟨fun r b w hz => ?_, fun r b1 b2 w hz => ?_, fun pairs hlen hnz => ?_⟩
  · obtain ⟨j, hj, hlow⟩ := vBoneData.lowest_zero r hz
    exact ⟨j, hj, hlow, vBoneData.addBoneData_lowest sizeof_size_t hsz r b w j hj hlow⟩
  · obtain ⟨j, hj, hlow⟩ := vBoneData.lowest_zero r hz
    have h1 := vBoneData.addBoneData_lowest sizeof_size_t hsz r b1 0 j hj hlow
    have h2 := vBoneData.addBoneData_lowest sizeof_size_t hsz r b2 w j hj hlow
    have h3 := vBoneData.addBoneData_lowest sizeof_size_t hsz
      { IDs := Function.update r.IDs j b1, weights := Function.update r.weights j 0 } b2 w j
      (by simp)
      (fun k hk => by
        have e : k ≠ j := fun h => by subst h; omega
        simpa [Function.update_noteq e] using hlow k hk)
    refine ⟨_, _, h1, ?_, h2⟩
    rw [h3]
    simp [Function.update_idem]
  · obtain ⟨r, hr, hslots⟩ := vBoneData.addAll_filled sizeof_size_t hsz pairs vBoneData.reset 0
      (by simpa using hlen) hnz (fun k hk => by omega) (fun k _ => rfl)
    refine ⟨r, hr, fun i => ?_⟩
    rw [hslots i]
    by_cases h : i.val < pairs.length
    · simp [h]
    · have hge : pairs.length ≤ i.val := by omega
      have hneg : ¬ (0 ≤ i.val ∧ i.val < 0 + pairs.length) := by omega
      rw [if_neg hneg, List.getD_eq_default _ _ hge]
      rfl

/-- Witness of C18: with `sizeof(size_t) = 8`, on the record with the slots
`(7, 1/2), (0, 0), (0, 0), (0, 0)` adding `(9, 0)` and then `(3, 1/4)` gives what
adding `(3, 1/4)` alone gives, and a fresh record filled with `(5, 1/2)`,
`(6, 1/4)`, `(7, 1/4)` holds them in the slots 0, 1, 2. -/
theorem zero_weight_does_not_occupy_witness :
    (∃ r1 r2, vBoneData.addBoneData 8 ⟨![7, 0, 0, 0], ![1 / 2, 0, 0, 0]⟩ 9 0 = .ok r1 ∧
      r1.addBoneData 8 3 (1 / 4) = .ok r2 ∧
      vBoneData.addBoneData 8 ⟨![7, 0, 0, 0], ![1 / 2, 0, 0, 0]⟩ 3 (1 / 4) = .ok r2) ∧
    ∃ r, vBoneData.reset.addAll 8 [(5, 1 / 2), (6, 1 / 4), (7, 1 / 4)] = .ok r ∧
      (r.IDs 0, r.weights 0) = (5, 1 / 2) ∧ (r.IDs 1, r.weights 1) = (6, 1 / 4) ∧
      (r.IDs 2, r.weights 2) = (7, 1 / 4) ∧ (r.IDs 3, r.weights 3) = (0, 0) := by
  have h := zero_weight_does_not_occupy 8 (by norm_num)
  refine ⟨h.2.1 ⟨![7, 0, 0, 0], ![1 / 2, 0, 0, 0]⟩ 9 3 (1 / 4) ⟨1, by simp⟩, ?_⟩
  obtain ⟨r, hr, hslots⟩ := h.2.2 [(5, 1 / 2), (6, 1 / 4), (7, 1 / 4)] (by decide)
    (by intro p hp; simp at hp; rcases hp with e | e | e <;> subst e <;> norm_num)
  exact ⟨r, hr, hslots 0, hslots 1, hslots 2, hslots 3⟩

/-! ### Interpolation: single keys and the range of success -/

/-- C13. Single-key interpolation: on a track with exactly one key each of
`calcInterpPosition`, `calcInterpRotation`, `calcInterpScaling` returns the value
of that key for every time, untouched by interpolation or normalisation; the
bracket search is not run, for on such a track it would end in its assertion. -/
theorem single_key_interpolation (Q : QuatOps) (animTime : ℚ) (pNodeAnim : aiNodeAnim) :
    (∀ k, pNodeAnim.mPositionKeys = [k] →
      calcInterpPosition animTime pNodeAnim = .ok k.mValue ∧
      findPosition animTime pNodeAnim = .error .findPositionAssert) ∧
    (∀ k, pNodeAnim.mRotationKeys = [k] →
      calcInterpRotation Q animTime pNodeAnim = .ok k.mValue ∧
      findRotation animTime pNodeAnim = .error .findRotationAssert) ∧
    (∀ k, pNodeAnim.mScalingKeys = [k] →
      calcInterpScaling animTime pNodeAnim = .ok k.mValue ∧
      findScaling animTime pNodeAnim = .error .findScalingAssert) := by
  refine ⟨fun k hk => ?_, fun k hk => ?_, fun k hk => ?_⟩
  · simp [calcInterpPosition, findPosition, hk, keyValue, scanKeys]
  · simp [calcInterpRotation, findRotation, hk, keyValue, scanKeys]
  · simp [calcInterpScaling, findScaling, hk, keyValue, scanKeys]

/-- Witness of C13: the one-key channel `stillChannel` at the times -3 and 100. -/
theorem single_key_interpolation_witness :
    calcInterpPosition (-3) stillChannel = .ok ⟨1, 2, 3⟩ ∧
    calcInterpRotation plainQuatOps 100 stillChannel = .ok ⟨0, 1, 0, 0⟩ ∧
    calcInterpScaling 100 stillChannel = .ok ⟨2, 2, 2⟩ :=
  ⟨((single_key_interpolation plainQuatOps (-3) stillChannel).1 _ rfl).1,
    ((single_key_interpolation plainQuatOps 100 stillChannel).2.1 _ rfl).1,
    ((single_key_interpolation plainQuatOps 100 stillChannel).2.2 _ rfl).1⟩

/-- C12 (amended). Bone record creation: the constructor of `boneInfo` leaves the
zero matrix, not the identity, in both members; so the record that the first
registration of a name appends has the zero matrix as its final transform (and
the registered offset as its offset) until a pass reaches the bone. -/
theorem new_bone_record_is_zero (s : modelLoader) (name : String) (A : Matrix_4f)
    (hd : s.numBones = s.m_BoneInfo.length) (hf : s.m_Bonemapping.find name = none) :
    boneInfo.new.finalTrans = zeroMatrix ∧ boneInfo.new.boneOffset = zeroMatrix ∧
    ∃ s1, registerBone s name A = .ok (s1, s.numBones) ∧
      s1.m_BoneInfo.length = s.m_BoneInfo.length + 1 ∧
      storedFinal s1 s.numBones = some zeroMatrix ∧
      storedOffset s1 s.numBones = some A := by
  refine ⟨rfl, rfl, ?_⟩
  obtain ⟨b, hb, hr⟩ := registerBone_unseen s name A hf (le_of_eq hd)
  have hb2 : b = boneInfo.new := by
    rw [hd] at hb
    simpa using hb.symm
  subst hb2
  have hlt : s.numBones < (s.m_BoneInfo ++ [boneInfo.new]).length := by simp; omega
  refine ⟨_, hr, by simp, ?_, ?_⟩
  · simp only [storedFinal]
    rw [List.get?_eq_getElem?, List.getElem?_set_self hlt]
    rfl
  · simp only [storedOffset]
    rw [List.get?_eq_getElem?, List.getElem?_set_self hlt]
    rfl

/-- Witness of C12 (amended): registering `hip` in the empty registry. -/
theorem new_bone_record_is_zero_witness :
    emptyLoader.numBones = emptyLoader.m_BoneInfo.length ∧
    emptyLoader.m_Bonemapping.find "hip" = none ∧
    ∃ s1, registerBone emptyLoader "hip" (Matrix_4f.InitScaleTransform 2 3 4) = .ok (s1, 0) ∧
      storedFinal s1 0 = some zeroMatrix ∧
      storedOffset s1 0 = some (Matrix_4f.InitScaleTransform 2 3 4) := by
  have h1 : emptyLoader.numBones = emptyLoader.m_BoneInfo.length := rfl
  have h2 : emptyLoader.m_Bonemapping.find "hip" = none := rfl
  obtain ⟨_, _, s1, h3, _, h4, h5⟩ :=
    new_bone_record_is_zero emptyLoader "hip" (Matrix_4f.InitScaleTransform 2 3 4) h1 h2
  exact ⟨h1, h2, s1, h3, h4, h5⟩

/-- Counterexample to C12 as stated: the record that the first registration of
`hip` creates has the zero matrix as its final transform, which is not the
identity, and that is what `boneTransform` would copy to its output. -/
theorem new_bone_record_counterexample :
    boneInfo.new.finalTrans ≠ Matrix_4f.InitIdentity ∧
    boneInfo.new.boneOffset ≠ Matrix_4f.InitIdentity ∧
    registerBone emptyLoader "hip" Matrix_4f.InitIdentity = .ok (hipLoader, 0) ∧
    storedFinal hipLoader 0 = some zeroMatrix ∧
    storedFinal hipLoader 0 ≠ some Matrix_4f.InitIdentity ∧
    collectTransforms hipLoader = .ok [zeroMatrix] := by
  refine ⟨?_, ?_, ?_, ?_, ?_, ?_⟩
  · simp [boneInfo.new, Matrix_4f.InitIdentity]
  · simp [boneInfo.new, Matrix_4f.InitIdentity]
  · simp [registerBone, emptyLoader, hipLoader, BoneMap.find, BoneMap.assign, List.lookup,
      boneInfo.new]
  · simp [storedFinal, hipLoader, boneInfo.new, zeroMatrix]
  · simp [storedFinal, hipLoader, boneInfo.new, Matrix_4f.InitIdentity]
  · rfl

/-- C14. Evaluation frame and missing-data fallback: a pass of `readNodeHierarchy`
leaves the name-to-index map, the bone count, the number of records and every
offset matrix as they were, and changes the final transform of record `i` only
if some node of the tree has a name that the map sends to `i`; a node without a
channel gets its static local transform, and a node whose name is not in the map
writes no record. -/
theorem evaluation_frame (Q : QuatOps) (animTime : ℚ) (root : aiNode) (parentTrans : Matrix_4f)
    (p out : Pass) (hrun : readNodeHierarchy Q animTime root parentTrans p = .ok out) :
    out.self.m_Bonemapping = p.self.m_Bonemapping ∧
    out.self.numBones = p.self.numBones ∧
    out.self.m_BoneInfo.length = p.self.m_BoneInfo.length ∧
    (∀ i, storedOffset out.self i = storedOffset p.self i) ∧
    (∀ i, storedFinal out.self i ≠ storedFinal p.self i →
      ∃ q n1, root.descend q = some n1 ∧ p.self.m_Bonemapping.find n1.mName = some i) ∧
    (∀ (pAnim : aiAnimation) (name : String) (L : Matrix_4f), findNodeAnim pAnim name = none →
      nodeTransformation Q pAnim animTime name L = .ok L) ∧
    (∀ (s : modelLoader) (name : String) (g : Matrix_4f), s.m_Bonemapping.find name = none →
      writeBone s name g = .ok s) := by
  obtain ⟨hf, _, hu⟩ := readNodeHierarchy_frame Q animTime root parentTrans p out hrun
  refine ⟨hf.map, hf.count, hf.size, hf.offsets, fun i hne => ?_,
    fun pAnim name L h => nodeTransformation_static Q pAnim animTime name L h,
    fun s name g h => by simp [writeBone, h]⟩
  by_contra hno
  apply hne
  have hunt : Untouched p.self.m_Bonemapping i root := by
    intro q n1 hq hfind
    exact hno ⟨q, n1, hq, hfind⟩
  simp only [storedFinal]
  rw [hu i hunt]

/-- Witness of C14: the pass over the three-level chain keeps the map, the bone
count and the offset of the bone `leaf`. -/
theorem evaluation_frame_witness :
    ∃ out, readNodeHierarchy plainQuatOps 0 chainRoot Matrix_4f.InitIdentity
        { self := chainLoader, visited := [] } = .ok out ∧
      out.self.m_Bonemapping = chainLoader.m_Bonemapping ∧
      out.self.numBones = chainLoader.numBones ∧
      storedOffset out.self 0 = storedOffset chainLoader 0 := by
  obtain ⟨h1, h2, _, h4, _⟩ := evaluation_frame plainQuatOps 0 chainRoot Matrix_4f.InitIdentity
    { self := chainLoader, visited := [] } _ chainRoot_run
  exact ⟨_, chainRoot_run, h1, h2, h4 0⟩

/-! ### Camera transform and the affine bottom row -/

/-- The rows that `InitCameraTransform` builds from unit vectors `n` (forward) and
`u` (up): they are pairwise orthogonal, the forward row has length 1, and the
rows `right` and `trueUp` have the squared length `1 - (u . n)^2`, which is 1 only
when up and forward are perpendicular. -/
theorem Matrix_4f.InitCameraTransform_rows (normalize : Vec3f → Vec3f) (Target Up : Vec3f)
    (hN : (normalize Target).lengthSq = 1) (hU : (normalize Up).lengthSq = 1) :
    ((Matrix_4f.InitCameraTransform normalize Target Up).axisRow 0).dot
      ((Matrix_4f.InitCameraTransform normalize Target Up).axisRow 1) = 0 ∧
    ((Matrix_4f.InitCameraTransform normalize Target Up).axisRow 0).dot
      ((Matrix_4f.InitCameraTransform normalize Target Up).axisRow 2) = 0 ∧
    ((Matrix_4f.InitCameraTransform normalize Target Up).axisRow 1).dot
      ((Matrix_4f.InitCameraTransform normalize Target Up).axisRow 2) = 0 ∧
    ((Matrix_4f.InitCameraTransform normalize Target Up).axisRow 2).lengthSq = 1 ∧
    ((Matrix_4f.InitCameraTransform normalize Target Up).axisRow 0).lengthSq =
      1 - ((normalize Up).dot (normalize Target)) ^ 2 ∧
    ((Matrix_4f.InitCameraTransform normalize Target Up).axisRow 1).lengthSq =
      1 - ((normalize Up).dot (normalize Target)) ^ 2 := by
  simp only [Matrix_4f.InitCameraTransform, Matrix_4f.axisRow, Vec3f.crossProd, Vec3f.dot,
    Vec3f.lengthSq] at hN hU ⊢
  generalize (normalize Target).x = nx at hN ⊢
  generalize (normalize Target).y = ny at hN ⊢
  generalize (normalize Target).z = nz at hN ⊢
  generalize (normalize Up).x = ux at hU ⊢
  generalize (normalize Up).y = uy at hU ⊢
  generalize (normalize Up).z = uz at hU ⊢
  refine ⟨by ring, by ring, by ring, hN, ?_, ?_⟩
  · linear_combination (nx * nx + ny * ny + nz * nz) * hU + hN
  · linear_combination
      ((nx * nx + ny * ny + nz * nz) + 1 - (ux * nx + uy * ny + uz * nz) ^ 2) * hN
        + (nx * nx + ny * ny + nz * nz) ^ 2 * hU

/-- C15 (the code at the failing input). For the forward vector (0,0,1) and the up
vector (0,3,4), which are non-zero and not parallel, `normalize` gives the unit
vectors (0,0,1) and (0,3/5,4/5), and `InitCameraTransform` builds the rows
(3/5,0,0), (0,3/5,0), (0,0,1): the rows `right` and `trueUp` have the squared
length 9/25, not 1, because the cross product is not normalised again. -/
theorem camera_rows_not_orthonormal :
    Vec3f.normalize ⟨0, 0, 1⟩ = ⟨0, 0, 1⟩ ∧
    Vec3f.normalize ⟨0, 3, 4⟩ = ⟨0, 3 / 5, 4 / 5⟩ ∧
    (Vec3f.normalize ⟨0, 0, 1⟩).lengthSq = 1 ∧
    (Vec3f.normalize ⟨0, 3, 4⟩).lengthSq = 1 ∧
    Matrix_4f.InitCameraTransform Vec3f.normalize ⟨0, 0, 1⟩ ⟨0, 3, 4⟩ =
      ⟨3 / 5, 0, 0, 0, 0, 3 / 5, 0, 0, 0, 0, 1, 0, 0, 0, 0, 1⟩ ∧
    ((Matrix_4f.InitCameraTransform Vec3f.normalize ⟨0, 0, 1⟩ ⟨0, 3, 4⟩).axisRow 0).lengthSq
      = 9 / 25 ∧
    ((Matrix_4f.InitCameraTransform Vec3f.normalize ⟨0, 0, 1⟩ ⟨0, 3, 4⟩).axisRow 1).lengthSq
      = 9 / 25 ∧
    ((Matrix_4f.InitCameraTransform Vec3f.normalize ⟨0, 0, 1⟩ ⟨0, 3, 4⟩).axisRow 0).lengthSq
      ≠ 1 := by
  have hn : Vec3f.normalize ⟨0, 0, 1⟩ = ⟨0, 0, 1⟩ := by
    norm_num [Vec3f.normalize, Vec3f.lengthSq, Vec3f.dot, Rat.sqrt]
  have hu : Vec3f.normalize ⟨0, 3, 4⟩ = ⟨0, 3 / 5, 4 / 5⟩ := by
    norm_num [Vec3f.normalize, Vec3f.lengthSq, Vec3f.dot, Rat.sqrt]
  have hM : Matrix_4f.InitCameraTransform Vec3f.normalize ⟨0, 0, 1⟩ ⟨0, 3, 4⟩ =
      ⟨3 / 5, 0, 0, 0, 0, 3 / 5, 0, 0, 0, 0, 1, 0, 0, 0, 0, 1⟩ := by
    simp only [Matrix_4f.InitCameraTransform, hn, hu, Vec3f.crossProd]
    norm_num
  refine ⟨hn, hu, ?_, ?_, hM, ?_, ?_, ?_⟩
  · rw [hn]; norm_num [Vec3f.lengthSq, Vec3f.dot]
  · rw [hu]; norm_num [Vec3f.lengthSq, Vec3f.dot]
  · rw [hM]; norm_num [Matrix_4f.axisRow, Vec3f.lengthSq, Vec3f.dot]
  · rw [hM]; norm_num [Matrix_4f.axisRow, Vec3f.lengthSq, Vec3f.dot]
  · rw [hM]; norm_num [Matrix_4f.axisRow, Vec3f.lengthSq, Vec3f.dot]

/-- With the bottom row `[0, 0, 0, 1]` the determinant is that of the upper left
3x3 block. -/
theorem Matrix_4f.det_of_affine (M : Matrix_4f) (h : M.AffineBottomRow) :
    M.m00 * (M.m11 * M.m22 - M.m12 * M.m21) + M.m01 * (M.m12 * M.m20 - M.m10 * M.m22)
      + M.m02 * (M.m10 * M.m21 - M.m11 * M.m20) = M.Determinant := by
  obtain ⟨h0, h1, h2, h3⟩ := h
  simp only [Matrix_4f.Determinant, h0, h1, h2, h3]
  ring

/-- C16. Affine bottom-row invariant: the bottom row `[0, 0, 0, 1]` is what
`InitScaleTransform`, `InitTranslationTransform` and `InitCameraTransform` build,
the product of two matrices with that bottom row has it, and `Inverse` on a
matrix with that bottom row and non-zero determinant runs through and leaves a
matrix with that bottom row. -/
theorem affine_bottom_row (normalize : Vec3f → Vec3f) :
    (∀ x y z : ℚ, (Matrix_4f.InitScaleTransform x y z).AffineBottomRow) ∧
    (∀ x y z : ℚ, (Matrix_4f.InitTranslationTransform x y z).AffineBottomRow) ∧
    (∀ Target Up : Vec3f, (Matrix_4f.InitCameraTransform normalize Target Up).AffineBottomRow) ∧
    (∀ A B : Matrix_4f, A.AffineBottomRow → B.AffineBottomRow → (A * B).AffineBottomRow) ∧
    (∀ M : Matrix_4f, M.AffineBottomRow → M.Determinant ≠ 0 →
      (M.Inverse).asserted = false ∧ (M.Inverse).self.AffineBottomRow) := by
  refine ⟨fun x y z => ⟨rfl, rfl, rfl, rfl⟩, fun x y z => ⟨rfl, rfl, rfl, rfl⟩,
    fun T U => ⟨rfl, rfl, rfl, rfl⟩, fun A B hA hB => ?_, fun M hM hdet => ?_⟩
  · obtain ⟨a0, a1, a2, a3⟩ := hA
    obtain ⟨b0, b1, b2, b3⟩ := hB
    simp [Matrix_4f.AffineBottomRow, Matrix_4f.mul_def, Matrix_4f.mul, a0, a1, a2, a3, b0, b1,
      b2, b3]
  · have hd3 := Matrix_4f.det_of_affine M hM
    obtain ⟨h0, h1, h2, h3⟩ := hM
    have hself : (M.Inverse).self = Matrix_4f.inverseRes (1 / M.Determinant) M := by
      simp [Matrix_4f.Inverse, hdet]
    refine ⟨by simp [Matrix_4f.Inverse, hdet], ?_⟩
    rw [hself]
    refine ⟨?_, ?_, ?_, ?_⟩
    · simp [Matrix_4f.inverseRes, h0, h1, h2]
    · simp [Matrix_4f.inverseRes, h0, h1, h2]
    · simp [Matrix_4f.inverseRes, h0, h1, h2]
    · show 1 / M.Determinant * (M.m00 * (M.m11 * M.m22 - M.m12 * M.m21)
        + M.m01 * (M.m12 * M.m20 - M.m10 * M.m22)
        + M.m02 * (M.m10 * M.m21 - M.m11 * M.m20)) = 1
      rw [hd3]
      exact one_div_mul_cancel hdet

/-- Witness of C16: the product of translate(1,2,3) and scale(2,3,4) and its
inverse have the bottom row `[0, 0, 0, 1]`. -/
theorem affine_bottom_row_witness :
    (Matrix_4f.InitTranslationTransform 1 2 3 * Matrix_4f.InitScaleTransform 2 3 4).AffineBottomRow ∧
    (Matrix_4f.InitTranslationTransform 1 2 3 * Matrix_4f.InitScaleTransform 2 3 4).Determinant
      ≠ 0 ∧
    Matrix_4f.AffineBottomRow
      ((Matrix_4f.InitTranslationTransform 1 2 3 * Matrix_4f.InitScaleTransform 2 3 4).Inverse).self
      := by
  have h := affine_bottom_row Vec3f.normalize
  have hp := h.2.2.2.1 _ _ (h.2.1 1 2 3) (h.1 2 3 4)
  have hdet : (Matrix_4f.InitTranslationTransform 1 2 3
      * Matrix_4f.InitScaleTransform 2 3 4).Determinant ≠ 0 := by
    norm_num [Matrix_4f.Determinant, Matrix_4f.mul_def, Matrix_4f.mul,
      Matrix_4f.InitTranslationTransform, Matrix_4f.InitScaleTransform]
  exact ⟨hp, hdet, (h.2.2.2.2 _ hp hdet).2⟩

end ModelLoader
